import Mathlib

/-!
Samtools: sample grouping (`sample.c`) and the spill file (`tmp_file.h`).

A shallow embedding of `sample.c` and of the contract declared in `tmp_file.h`.

Conventions of the embedding.

* C strings are `String` values (a C string holds no NUL character; the
  definitions are total on every `String`).
* The `int` fields `n` and `m` of `bam_sample_t` only count entries of an
  array and never go below zero; they are natural numbers.  Signed overflow
  is undefined in C and would need `2^30` interned samples, so no wrap-around
  is modelled.  Return codes and stored ids are `Int`.
* Every library call that the source checks for failure (`strdup`, `realloc`,
  `kh_put`, `kputs`, `kputc`, `sam_hdr_find_tag_pos`) takes its outcome from a
  list of allocation outcomes that is threaded through the code: `true` is
  success, `false` is failure, and an exhausted list answers success.
* A slot that `kh_put` has created and the code has not yet written holds an
  indeterminate `int`; it is the parameter `junk`.
-/

namespace Samtools

/-! ## Allocation outcomes -/

/-- The outcome of the next fallible library call and the outcomes left for
the calls after it. -/
def alloc (o : List Bool) : Bool × List Bool := (o.headD true, o.tail)

/-- No call fails. -/
def NoFail (o : List Bool) : Prop := ∀ b ∈ o, b = true

instance (o : List Bool) : Decidable (NoFail o) := by
  unfold NoFail; infer_instance

/-! ## khash (`KHASH_MAP_INIT_STR(sm, int)`) -/

/-- A khash table from C strings (compared by content) to `int`: the occupied
slots in order.  An iterator is a slot index; `kh_end` is `none`. -/
abbrev khash_t := List (String × Int)

/-- Function `kh_init`: the empty table. -/
def kh_init : khash_t := []

/-- Function `kh_get`: the slot holding `key`, or `kh_end`. -/
def kh_get : khash_t → String → Option Nat
  | [], _ => none
  | e :: t, key => if e.1 = key then some 0 else (kh_get t key).map (· + 1)

/-- Macro `kh_val` read as an rvalue: the value stored in slot `k`. -/
def kh_val (h : khash_t) (k : Nat) : Int :=
  match h.get? k with
  | some e => e.2
  | none => 0

/-- Macro `kh_val` used as an lvalue: `kh_val(h, k) = v`. -/
def kh_set_val (h : khash_t) (k : Nat) (v : Int) : khash_t :=
  match h.get? k with
  | some e => h.set k (e.1, v)
  | none => h

/-- Function `kh_put`: the table is resized first when needed (`ok = false`
is a failed resize: `ret = -1`, table unchanged, iterator `kh_end`); a key
already present gives its slot and `ret = 0`; otherwise a new slot is
occupied, its value left unwritten (`junk`), and `ret = 1`.  The result is
the iterator, `ret` and the table. -/
def kh_put (h : khash_t) (key : String) (junk : Int) (ok : Bool) : Nat × Int × khash_t :=
  if ok = false then (h.length, -1, h)
  else match kh_get h key with
    | some k => (k, 0, h)
    | none => (h.length, 1, h ++ [(key, junk)])

/-- The value a table holds for `key`, if `key` is present:
`kh_val(h, kh_get(h, key))`. -/
def kh_find (h : khash_t) (key : String) : Option Int :=
  (kh_get h key).map (kh_val h)

/-! ## `bam_sample_t` -/

/-- Modelled from the spec: `sample.h` is not among the sources, so the record
has the fields `sample.c` uses: the count `n` of interned samples, the
capacity `m` of `smpl`, the array `smpl` of sample names (`none` is a pointer
that is NULL, unwritten or freed), and the two tables `rg2smid` (key to sample
id) and `sm2id` (sample name to sample id). -/
structure bam_sample_t where
  n : Nat
  m : Nat
  smpl : List (Option String)
  rg2smid : khash_t
  sm2id : khash_t
deriving DecidableEq, Repr

/-- Function `bam_smpl_init` (sample.c:34): `calloc` zeroes the record and both
tables start empty. -/
def bam_smpl_init : bam_sample_t :=
  { n := 0, m := 0, smpl := [], rg2smid := kh_init, sm2id := kh_init }

/-- Function `realloc(smpl, sizeof(char*) * new_m)`: the old entries are kept
and the new ones are unwritten. -/
def realloc_smpl (smpl : List (Option String)) (new_m : Nat) : List (Option String) :=
  (smpl ++ List.replicate new_m none).take new_m

/-- Function `add_pair` (sample.c:58).  The argument `sm2id` of the C function
is `sm->sm2id` at its only call sites, so it is read from `sm`.  The result is
the return code, the record as the call leaves it, and the allocation
outcomes left. -/
def add_pair (sm : bam_sample_t) (key val : String) (junk : Int) (o : List Bool) :
    Int × bam_sample_t × List Bool :=
  match kh_get sm.rg2smid key with
  | some _ => (0, sm, o)                                     -- duplicated @RG-ID
  | none =>
    -- k = strdup(key)
    if (alloc o).1 = false then (-1, sm, (alloc o).2) else
    let o1 := (alloc o).2
    -- k_rg = kh_put(sm, rg2smid, k, &ret)
    let p := kh_put sm.rg2smid key junk (alloc o1).1
    let o2 := (alloc o1).2
    if p.2.1 < 0 then (-1, sm, o2) else
    let sm1 := { sm with rg2smid := p.2.2 }
    match kh_get sm1.sm2id val with
    | some k_sm =>
      (0, { sm1 with rg2smid := kh_set_val sm1.rg2smid p.1 (kh_val sm1.sm2id k_sm) }, o2)
    | none =>                                                -- absent
      -- if (sm->n == sm->m) { ... realloc ... }
      let full := decide (sm1.n = sm1.m)
      let ok_re := if full then (alloc o2).1 else true
      let o3 := if full then (alloc o2).2 else o2
      if ok_re = false then (-1, sm1, o3) else
      let new_m := if sm1.m ≠ 0 then sm1.m * 2 else 1
      let sm2 := if full then { sm1 with m := new_m, smpl := realloc_smpl sm1.smpl new_m } else sm1
      -- sm->smpl[sm->n] = strdup(val)
      let ok_dup := (alloc o3).1
      let o4 := (alloc o3).2
      let sm3 := { sm2 with smpl := sm2.smpl.set sm2.n (if ok_dup then some val else none) }
      if ok_dup = false then (-1, sm3, o4) else
      -- k_sm = kh_put(sm, sm2id, sm->smpl[sm->n], &ret)
      let q := kh_put sm3.sm2id val junk (alloc o4).1
      let o5 := (alloc o4).2
      if q.2.1 < 0 then (-1, { sm3 with smpl := sm3.smpl.set sm3.n none }, o5) else
      -- kh_val(sm2id, k_sm) = sm->n++
      let sm4 := { sm3 with sm2id := kh_set_val q.2.2 q.1 (sm3.n : Int), n := sm3.n + 1 }
      -- kh_val(rg2smid, k_rg) = kh_val(sm2id, k_sm)
      (0, { sm4 with rg2smid := kh_set_val sm4.rg2smid p.1 (kh_val sm4.sm2id q.1) }, o5)

/-! ## The header (`sam_hdr_t`, htslib) -/

/-- The part of an alignment header that `bam_smpl_add` reads: whether its
records can be built at all, and its `@RG` lines in order, each a list of
tag/value pairs. -/
structure sam_hdr_t where
  parse_ok : Bool
  rg : List (List (String × String))
deriving DecidableEq, Repr

/-- Function `sam_hdr_count_lines(hdr, "RG")`: the number of `@RG` lines, or
`-1` when the header records cannot be built. -/
def sam_hdr_count_lines (hdr : sam_hdr_t) : Int :=
  if hdr.parse_ok then (hdr.rg.length : Int) else -1

/-- The value of the first `tag` of a line. -/
def find_key : List (String × String) → String → Option String
  | [], _ => none
  | e :: t, tag => if e.1 = tag then some e.2 else find_key t tag

/-- Function `sam_hdr_find_tag_pos(hdr, "RG", pos, tag, &ks)`: the value of
`tag` on the `@RG` line at position `pos`; `-1` when the line has no such tag,
`-2` on other errors (no such line, or the copy into `ks` fails). -/
def sam_hdr_find_tag_pos (hdr : sam_hdr_t) (pos : Nat) (tag : String) (ok : Bool) :
    Except Int String :=
  if hdr.parse_ok = false then .error (-2) else
  match hdr.rg.get? pos with
  | none => .error (-2)
  | some line =>
    match find_key line tag with
    | none => .error (-1)
    | some v => if ok = false then .error (-2) else .ok v

/-- Function `kputs(s, &buf)` (and `kputc`): append, or leave `buf` as it is
and report EOF when the buffer cannot grow. -/
def kputs (s : String) (buf : String) (ok : Bool) : Int × String :=
  if ok = false then (-1, buf) else ((s.length : Int), buf ++ s)

/-- The `for` loop of `bam_smpl_add` (sample.c:107-123), with `todo = nrg - i`
iterations left.  The result is `false` for `goto fail` and `true` when the
loop ends or breaks, then `sm`, `first_sm.s`, `n` and the allocation outcomes
left. -/
def rg_loop (hdr : sam_hdr_t) (fn : String) (junk : Int) :
    Nat → Nat → bam_sample_t → Option String → Nat → List Bool →
    Bool × bam_sample_t × Option String × Nat × List Bool
  | 0, _, sm, first_sm, n, o => (true, sm, first_sm, n, o)
  | todo + 1, i, sm, first_sm, n, o =>
    match sam_hdr_find_tag_pos hdr i "ID" (alloc o).1 with
    | .error _ => (true, sm, first_sm, n, (alloc o).2)              -- break
    | .ok id_val =>
      let o1 := (alloc o).2
      match sam_hdr_find_tag_pos hdr i "SM" (alloc o1).1 with
      | .error _ => (true, sm, first_sm, n, (alloc o1).2)           -- break
      | .ok sm_val =>
        let o2 := (alloc o1).2
        let b1 := kputs fn "" (alloc o2).1                          -- kputs(fn, ks_clear(&buf))
        let o3 := (alloc o2).2
        if b1.1 < 0 then (false, sm, first_sm, n, o3) else
        let b2 := kputs "/" b1.2 (alloc o3).1                       -- kputc('/', &buf)
        let o4 := (alloc o3).2
        if b2.1 < 0 then (false, sm, first_sm, n, o4) else
        let b3 := kputs id_val b2.2 (alloc o4).1                    -- kputs(id_val.s, &buf)
        let o5 := (alloc o4).2
        if b3.1 < 0 then (false, sm, first_sm, n, o5) else
        let r := add_pair sm b3.2 sm_val junk o5
        if r.1 < 0 then (false, r.2.1, first_sm, n, r.2.2) else
        let first_sm1 := match first_sm with
          | none => some sm_val
          | some f => some f
        rg_loop hdr fn junk todo (i + 1) r.2.1 first_sm1 (n + 1) r.2.2

/-- Function `bam_smpl_add` (sample.c:95).  A NULL header is `none`.  The
result is the return code and the record as the call leaves it. -/
def bam_smpl_add (sm : bam_sample_t) (fn : String) (hdr : Option sam_hdr_t)
    (junk : Int) (o : List Bool) : Int × bam_sample_t :=
  match hdr with
  | none =>
    let r := add_pair sm fn fn junk o
    (r.1, r.2.1)
  | some hdr =>
    let nrg := sam_hdr_count_lines hdr
    if nrg < 0 then (-1, sm) else
    let l := rg_loop hdr fn junk nrg.toNat 0 sm none 0 o
    if l.1 = false then (-1, l.2.1) else
    let sm1 := l.2.1
    let first_sm := l.2.2.1
    let n := l.2.2.2.1
    let o1 := l.2.2.2.2
    if n = 0 then
      let r := add_pair sm1 fn fn junk o1
      if r.1 < 0 then (-1, r.2.1) else (0, r.2.1)
    else
      match first_sm with
      | some f =>
        if n = 1 then
          let r := add_pair sm1 fn f junk o1
          if r.1 < 0 then (-1, r.2.1) else (0, r.2.1)
        else (0, sm1)
      | none => (0, sm1)

/-- Function `bam_smpl_rg2smid` (sample.c:147).  A NULL `rg` is `none`.  The
three appends to `str` are not checked by the source; the key is the one they
compose. -/
def bam_smpl_rg2smid (sm : bam_sample_t) (fn : String) (rg : Option String) : Int :=
  let k := match rg with
    | some rg => kh_get sm.rg2smid ((kputs rg (kputs "/" (kputs fn "" true).2 true).2 true).2)
    | none => kh_get sm.rg2smid fn
  match k with
  | none => -1
  | some k => kh_val sm.rg2smid k

/-- The key `bam_smpl_rg2smid` looks up: `fn` when `rg` is NULL, otherwise
`fn`, a slash and `rg`. -/
def compose_key (fn : String) (rg : Option String) : String :=
  match rg with
  | some rg => fn ++ "/" ++ rg
  | none => fn

/-! ## The spill file (`tmp_file.h`)

The header `tmp_file.h` gives the status codes, the default sizes and the
contract of each function; the bodies (`tmp_file.c`) are not among the
sources and are modelled from the specification.  The block compressor and
the record framing are outside the repository and are parameters.  Disk I/O
and allocation are taken to succeed. -/

/-- Macro `TMP_SAM_GROUP_SIZE` (tmp_file.h:18). -/
def TMP_SAM_GROUP_SIZE : Nat := 100

/-- Macro `TMP_SAM_MAX_DATA` (tmp_file.h:19). -/
def TMP_SAM_MAX_DATA : Nat := 1024

/-- Macro `TMP_SAM_RING_SIZE` (tmp_file.h:20). -/
def TMP_SAM_RING_SIZE : Nat := 1048576

/-- Macro `TMP_SAM_OK` (tmp_file.h:21). -/
def TMP_SAM_OK : Int := 0

/-- Macro `TMP_SAM_MEM_ERROR` (tmp_file.h:22). -/
def TMP_SAM_MEM_ERROR : Int := -1

/-- Macro `TMP_SAM_FILE_ERROR` (tmp_file.h:23). -/
def TMP_SAM_FILE_ERROR : Int := -2

/-- Macro `TMP_SAM_LZ4_ERROR` (tmp_file.h:24). -/
def TMP_SAM_LZ4_ERROR : Int := -3

/-- Macro `TMP_SAM_INPUT_ERROR` (tmp_file.h:25). -/
def TMP_SAM_INPUT_ERROR : Int := -4

/-- The streaming block compressor (LZ4, outside the repository), as the
specification uses it: `compress dictionary group` gives the compressed block,
the empty block standing for a failed compression, and
`decompress dictionary block` gives the decompressed bytes or fails. -/
structure lz4_t where
  compress : List Nat → List Nat → List Nat
  decompress : List Nat → List Nat → Option (List Nat)

/-- The record codec (outside the repository), as the specification uses it:
`serialize record` is the framed entry of a record in a group, and
`deserialize bytes` reads the entry at the front of `bytes`, giving the record
and the size of its entry. -/
structure codec_t where
  serialize : List Nat → List Nat
  deserialize : List Nat → Option (List Nat × Nat)

/-- The compressor is lossless: a group that is not empty compresses, under any
dictionary, to a block that is not empty and that decompresses, under the same
dictionary, to the group. -/
def lz4_lossless (lz : lz4_t) : Prop :=
  ∀ d x, x ≠ [] → lz.compress d x ≠ [] ∧ lz.decompress d (lz.compress d x) = some x

/-- The codec frames records: the entry of a record is not empty, and reading
at the front of an entry followed by any bytes gives the record back and the
size of the entry. -/
def codec_frames (codec : codec_t) : Prop :=
  ∀ r rest, 0 < (codec.serialize r).length ∧
    codec.deserialize (codec.serialize r ++ rest) = some (r, (codec.serialize r).length)

/-- Modelled from the spec: the modes of the lifecycle controller (section 4.5);
`tmp_file.c` is not among the sources. -/
inductive tmp_mode where
  | Closed
  | WriteOpen
  | WriteFinalizedClosed
  | WriteFinalizedOpen
  | ReadOpen
deriving DecidableEq, Repr

/-- Modelled from the spec: the spill file of section 3, `tmp_file.c` not being
among the sources.  The record has the attributes that section 3 lists, under
the names of `tmp_file_t` in `tmp_file.h` where the header has one; the
buffers of the header are held by their contents, not by pointers, sizes and
offsets.  The backing file `fp` is the list of the frames written, each frame
being its compressed bytes (its length prefix is their length) and the frame
of length zero being the terminator; `unread` is the part of the file from the
read position on; `staging` is the staging buffer; `entry_number` counts the
records of the current group; `ring_buffer` is the dictionary window, of
capacity `ring_buffer_size`; `max_data_size` is the size hint, which only
guides the growth of buffers. -/
structure tmp_file_t where
  mode : tmp_mode
  fp : List (List Nat)
  unread : List (List Nat)
  staging : List Nat
  entry_number : Nat
  group_size : Nat
  max_data_size : Nat
  ring_buffer : List Nat
  ring_buffer_size : Nat
  groups_written : Nat
deriving DecidableEq, Repr

/-- Modelled from the spec: `extend` of the dictionary window (section 4.2),
`tmp_file.c` not being among the sources: the bytes are appended and the
oldest bytes are discarded once the capacity is exceeded. -/
def window_extend (cap : Nat) (w bytes : List Nat) : List Nat :=
  (w ++ bytes).drop ((w ++ bytes).length - cap)

/-- Modelled from the spec: `tmp_file_open_write` (section 4.5 `open_write`),
`tmp_file.c` not being among the sources: all buffers are allocated empty, the
file is opened empty for writing, and the mode is WriteOpen. -/
def tmp_file_open_write : Int × tmp_file_t :=
  (TMP_SAM_OK,
    { mode := tmp_mode.WriteOpen, fp := [], unread := [], staging := [], entry_number := 0,
      group_size := TMP_SAM_GROUP_SIZE, max_data_size := TMP_SAM_MAX_DATA,
      ring_buffer := [], ring_buffer_size := TMP_SAM_RING_SIZE, groups_written := 0 })

/-- Modelled from the spec: the flush of a group (sections 4.3 and 4.4),
`tmp_file.c` not being among the sources: the staging buffer is compressed
under the dictionary window, the block is written as one frame, the window is
extended with the uncompressed bytes of the group, and the staging buffer and
the group counter are reset. -/
def flush_group (lz : lz4_t) (t : tmp_file_t) : Int × tmp_file_t :=
  let c := lz.compress t.ring_buffer t.staging
  if c = [] then (TMP_SAM_LZ4_ERROR, t) else
  (TMP_SAM_OK,
    { t with
      fp := t.fp ++ [c]
      ring_buffer := window_extend t.ring_buffer_size t.ring_buffer t.staging
      staging := []
      entry_number := 0
      groups_written := t.groups_written + 1 })

/-- Modelled from the spec: `tmp_file_write` (section 4.5 `write`),
`tmp_file.c` not being among the sources: legal only in WriteOpen; the record
is appended to the staging buffer, and the group is flushed when the count of
records reaches the group size or the buffer threshold is reached.  The
specification names the buffer threshold without fixing it; it is the test
`full` on the spill file. -/
def tmp_file_write (lz : lz4_t) (codec : codec_t) (full : tmp_file_t → Bool) (t : tmp_file_t)
    (inbam : List Nat) : Int × tmp_file_t :=
  if t.mode ≠ tmp_mode.WriteOpen then (TMP_SAM_INPUT_ERROR, t) else
  let t1 :=
    { t with staging := t.staging ++ codec.serialize inbam, entry_number := t.entry_number + 1 }
  if t1.group_size ≤ t1.entry_number ∨ full t1 = true then flush_group lz t1
  else (TMP_SAM_OK, t1)

/-- Modelled from the spec: `tmp_file_close_write` (section 4.5 `close_write`),
`tmp_file.c` not being among the sources: legal only in WriteOpen; a partial
group that is not empty is flushed, the terminator, a frame of length zero, is
written, and the file is closed. -/
def tmp_file_close_write (lz : lz4_t) (t : tmp_file_t) : Int × tmp_file_t :=
  if t.mode ≠ tmp_mode.WriteOpen then (TMP_SAM_INPUT_ERROR, t) else
  let r := if t.entry_number ≠ 0 then flush_group lz t else (TMP_SAM_OK, t)
  if r.1 ≠ TMP_SAM_OK then r else
  (TMP_SAM_OK, { r.2 with fp := r.2.fp ++ [[]], mode := tmp_mode.WriteFinalizedClosed })

/-- Modelled from the spec: `tmp_file_open_read` (section 4.5 `open_read`),
`tmp_file.c` not being among the sources: the companion of
`tmp_file_close_write`; the file is opened at its start, the decompressor
starts with an empty dictionary window, and the mode is ReadOpen. -/
def tmp_file_open_read (t : tmp_file_t) : Int × tmp_file_t :=
  if t.mode ≠ tmp_mode.WriteFinalizedClosed then (TMP_SAM_INPUT_ERROR, t) else
  (TMP_SAM_OK,
    { t with mode := tmp_mode.ReadOpen, unread := t.fp, ring_buffer := [], staging := [],
             entry_number := 0 })

/-- Modelled from the spec: the drain cursor of the staging buffer (section
4.1), `tmp_file.c` not being among the sources: the record at the cursor is
handed out and the cursor advances by the size of its entry, which is the
result of the read. -/
def next_record (codec : codec_t) (t : tmp_file_t) : Int × tmp_file_t × Option (List Nat) :=
  match codec.deserialize t.staging with
  | none => (TMP_SAM_INPUT_ERROR, t, none)
  | some (r, sz) =>
    ((sz : Int), { t with staging := t.staging.drop sz, entry_number := t.entry_number + 1 }, some r)

/-- Modelled from the spec: `tmp_file_read` (section 4.5 `read`), `tmp_file.c`
not being among the sources: legal only in ReadOpen; when the staging buffer
is exhausted the next frame is read, the terminator giving the result 0 (end
of file), any other frame being decompressed under the dictionary window,
which is then extended with the decompressed bytes; the next record is handed
out with the size of its entry as result.  A read at the terminator leaves the
file there, so that reading on gives 0 again (section 8).  The third
component is the record put into `inbam`. -/
def tmp_file_read (lz : lz4_t) (codec : codec_t) (t : tmp_file_t) :
    Int × tmp_file_t × Option (List Nat) :=
  if t.mode ≠ tmp_mode.ReadOpen then (TMP_SAM_INPUT_ERROR, t, none) else
  match t.staging with
  | [] =>
    match t.unread with
    | [] => (TMP_SAM_FILE_ERROR, t, none)
    | [] :: _ => (0, t, none)
    | (b :: c) :: rest =>
      match lz.decompress t.ring_buffer (b :: c) with
      | none => (TMP_SAM_LZ4_ERROR, t, none)
      | some bytes =>
        next_record codec
          { t with unread := rest
                   ring_buffer := window_extend t.ring_buffer_size t.ring_buffer bytes
                   staging := bytes
                   entry_number := 0 }
  | _ :: _ => next_record codec t

/-- The calls `tmp_file_write` for each record in turn: the results and the
spill file after the last call. -/
def write_all (lz : lz4_t) (codec : codec_t) (full : tmp_file_t → Bool) :
    tmp_file_t → List (List Nat) → List Int × tmp_file_t
  | t, [] => ([], t)
  | t, r :: rs =>
    let w := tmp_file_write lz codec full t r
    let rest := write_all lz codec full w.2 rs
    (w.1 :: rest.1, rest.2)

/-- The first `k` calls of `tmp_file_read`: the result and the record of each
call, and the spill file after the last call. -/
def read_many (lz : lz4_t) (codec : codec_t) :
    Nat → tmp_file_t → List (Int × Option (List Nat)) × tmp_file_t
  | 0, t => ([], t)
  | k + 1, t =>
    let r := tmp_file_read lz codec t
    let rest := read_many lz codec k r.2.1
    ((r.1, r.2.2) :: rest.1, rest.2)

/-- A compressor that stores the group as it is. -/
def lz4_store : lz4_t :=
  { compress := fun _ x => x, decompress := fun _ c => some c }

/-- A codec that frames a record by its length, in one cell, then its bytes. -/
def codec_len : codec_t :=
  { serialize := fun r => r.length :: r
    deserialize := fun bytes =>
      match bytes with
      | [] => none
      | k :: rest => if k ≤ rest.length then some (rest.take k, k + 1) else none }

/-- The bytes of a group: the entries of its records, one after the other. -/
def payload (codec : codec_t) : List (List Nat) → List Nat
  | [] => []
  | r :: rs => codec.serialize r ++ payload codec rs

/-- The records of a list of groups, in order. -/
def records_of : List (List (List Nat)) → List (List Nat)
  | [] => []
  | g :: gs => g ++ records_of gs

/-- The frames of a list of groups written one after the other, starting with
the dictionary window `d`. -/
def frames_of (lz : lz4_t) (codec : codec_t) (cap : Nat) :
    List Nat → List (List (List Nat)) → List (List Nat)
  | _, [] => []
  | d, g :: gs =>
    lz.compress d (payload codec g) ::
      frames_of lz codec cap (window_extend cap d (payload codec g)) gs

/-- The dictionary window after a list of groups, starting with the window `d`. -/
def dict_after (codec : codec_t) (cap : Nat) : List Nat → List (List (List Nat)) → List Nat
  | d, [] => d
  | d, g :: gs => dict_after codec cap (window_extend cap d (payload codec g)) gs

/-- A spill file in WriteOpen that has flushed the groups `gs` and holds the
records `p` in its staging buffer. -/
def Writing (lz : lz4_t) (codec : codec_t) (t : tmp_file_t) (gs : List (List (List Nat)))
    (p : List (List Nat)) : Prop :=
  t.mode = tmp_mode.WriteOpen ∧
  t.fp = frames_of lz codec t.ring_buffer_size [] gs ∧
  t.ring_buffer = dict_after codec t.ring_buffer_size [] gs ∧
  t.staging = payload codec p ∧
  t.entry_number = p.length ∧
  ∀ g ∈ gs, g ≠ []

/-- A spill file in ReadOpen whose staging buffer still holds the records `p`
and whose unread frames are those of the groups `gs` and the terminator. -/
def Reading (lz : lz4_t) (codec : codec_t) (t : tmp_file_t) (p : List (List Nat))
    (gs : List (List (List Nat))) : Prop :=
  t.mode = tmp_mode.ReadOpen ∧
  t.staging = payload codec p ∧
  t.unread = frames_of lz codec t.ring_buffer_size t.ring_buffer gs ++ [[]] ∧
  ∀ g ∈ gs, g ≠ []

/-- A compressor that puts the sum of the dictionary window in front of the
group and refuses a block whose first cell is not the sum of the window. -/
def lz4_tagged : lz4_t :=
  { compress := fun d x => d.sum :: x
    decompress := fun d c =>
      match c with
      | [] => none
      | k :: rest => if k = d.sum then some rest else none }

/-- A spill file open for writing with groups of two records and a dictionary
window of four bytes. -/
def tmp_small : tmp_file_t :=
  { tmp_file_open_write.2 with group_size := 2, ring_buffer_size := 4 }

/-- A buffer threshold of three staged bytes. -/
def full_at_three (t : tmp_file_t) : Bool := decide (3 ≤ t.staging.length)

/-- Five records, one of them empty. -/
def five_records : List (List Nat) := [[1, 2], [3], [], [4, 5, 6], [7]]

/-! ## Concrete inputs -/

/-- An `@RG` line with an ID and an SM tag. -/
def rg_line (id sm : String) : List (String × String) := [("ID", id), ("SM", sm)]

/-- A header with three read groups over two samples. -/
def hdr_three : sam_hdr_t :=
  { parse_ok := true, rg := [rg_line "a" "x", rg_line "b" "y", rg_line "c" "x"] }

/-- A header with one read group. -/
def hdr_one : sam_hdr_t := { parse_ok := true, rg := [rg_line "a" "x"] }

/-- A header without read groups. -/
def hdr_none : sam_hdr_t := { parse_ok := true, rg := [] }

/-- A header with two `@RG` lines, the second of them without an SM tag. -/
def hdr_second_bare : sam_hdr_t :=
  { parse_ok := true, rg := [rg_line "a" "s", [("ID", "b")]] }

/-- A header whose two `@RG` lines have the same ID and different samples. -/
def hdr_same_id : sam_hdr_t := { parse_ok := true, rg := [rg_line "a" "x", rg_line "a" "y"] }

/-- A header with the one read group a, of sample y. -/
def hdr_one_y : sam_hdr_t := { parse_ok := true, rg := [rg_line "a" "y"] }

/-- A header whose second `@RG` line has no SM tag and whose third line is
complete again. -/
def hdr_gap : sam_hdr_t :=
  { parse_ok := true, rg := [rg_line "a" "x", [("ID", "b")], rg_line "c" "z"] }

/-! ## Invariants and reachable states -/

/-- Capacity of `smpl` after the growth step of `add_pair` (sample.c:75-81). -/
def grown_m (sm : bam_sample_t) : Nat :=
  if sm.n = sm.m then (if sm.m ≠ 0 then sm.m * 2 else 1) else sm.m

/-- Array `smpl` after the growth step of `add_pair` (sample.c:75-81). -/
def grown_smpl (sm : bam_sample_t) : List (Option String) :=
  if sm.n = sm.m then realloc_smpl sm.smpl (if sm.m ≠ 0 then sm.m * 2 else 1) else sm.smpl

/-- The record `add_pair` leaves when it registers a new key for a sample name
that is not interned yet and no call fails. -/
def add_fresh (sm : bam_sample_t) (key val : String) : bam_sample_t :=
  { n := sm.n + 1
    m := grown_m sm
    smpl := (grown_smpl sm).set sm.n (some val)
    rg2smid := sm.rg2smid ++ [(key, (sm.n : Int))]
    sm2id := sm.sm2id ++ [(val, (sm.n : Int))] }

/-- The sample table is well formed: `smpl` has `m` entries, `n` of them in
use, `sm2id` sends every interned name to its position in `smpl`, and every
position below `n` holds an interned name. -/
def InvSm (sm : bam_sample_t) : Prop :=
  sm.n ≤ sm.m ∧ sm.smpl.length = sm.m ∧
  (∀ s i, kh_find sm.sm2id s = some i →
    ∃ j : Nat, i = (j : Int) ∧ j < sm.n ∧ sm.smpl[j]? = some (some s)) ∧
  (∀ j : Nat, j < sm.n →
    ∃ s, sm.smpl[j]? = some (some s) ∧ kh_find sm.sm2id s = some (j : Int))

/-- Every id that `rg2smid` holds for a key is the id of an interned sample. -/
def InvRg (sm : bam_sample_t) : Prop :=
  ∀ key i, kh_find sm.rg2smid key = some i → 0 ≤ i ∧ i < (sm.n : Int)

/-- States reachable from `bam_smpl_init` by calls of `bam_smpl_add`, whatever
they return. -/
inductive Reachable : bam_sample_t → Prop
  | init : Reachable bam_smpl_init
  | add (sm : bam_sample_t) (fn : String) (hdr : Option sam_hdr_t) (junk : Int)
      (o : List Bool) : Reachable sm → Reachable (bam_smpl_add sm fn hdr junk o).2

/-- States reachable from `bam_smpl_init` by calls of `bam_smpl_add` that
returned 0. -/
inductive Reachable0 : bam_sample_t → Prop
  | init : Reachable0 bam_smpl_init
  | add (sm : bam_sample_t) (fn : String) (hdr : Option sam_hdr_t) (junk : Int)
      (o : List Bool) : Reachable0 sm → (bam_smpl_add sm fn hdr junk o).1 = 0 →
      Reachable0 (bam_smpl_add sm fn hdr junk o).2

/-- The record `add_pair` leaves when no call fails: nothing changes for a
key that is registered; a new key gets the id of `val`, which is interned
first when it is new. -/
def registered (sm : bam_sample_t) (key val : String) : bam_sample_t :=
  match kh_get sm.rg2smid key with
  | some _ => sm
  | none =>
    match kh_get sm.sm2id val with
    | some k => { sm with rg2smid := sm.rg2smid ++ [(key, kh_val sm.sm2id k)] }
    | none => add_fresh sm key val

/-- The later record keeps what the earlier one holds: every registered key
and every interned name keep their ids, `n` does not decrease and the names
in use keep their positions in `smpl`. -/
def Ext (sm sm' : bam_sample_t) : Prop :=
  (∀ k v, kh_find sm.rg2smid k = some v → kh_find sm'.rg2smid k = some v) ∧
  (∀ s i, kh_find sm.sm2id s = some i → kh_find sm'.sm2id s = some i) ∧
  sm.n ≤ sm'.n ∧
  (∀ j : Nat, j < sm.n → sm'.smpl[j]? = sm.smpl[j]?)

/-- The (ID, SM) pairs of the `@RG` lines that come before the first line
lacking an ID or an SM tag: the lines the loop of `bam_smpl_add` gets to. -/
def good_lines : List (List (String × String)) → List (String × String)
  | [] => []
  | line :: rest =>
    match find_key line "ID", find_key line "SM" with
    | some id, some s => (id, s) :: good_lines rest
    | _, _ => []

/-- The record after `add_pair` has run, without a failure, for the key
`fn/ID` and the sample `SM` of each pair in turn. -/
def register_all (sm : bam_sample_t) (fn : String) : List (String × String) → bam_sample_t
  | [] => sm
  | e :: rest => register_all (registered sm (fn ++ "/" ++ e.1) e.2) fn rest

/-- Variable `first_sm` after the loop has gone through the pairs `g`. -/
def first_of (first_sm : Option String) (g : List (String × String)) : Option String :=
  match first_sm with
  | some f => some f
  | none => g.head?.map (·.2)

/-- The record `bam_smpl_add` leaves for a header with `@RG` lines `rg` when
no call fails: the lines before the first one lacking ID or SM are registered,
then the bare `fn` is registered for itself when there was no such line, and
for the sample of the only such line when there was exactly one. -/
def added (sm : bam_sample_t) (fn : String) (rg : List (List (String × String))) :
    bam_sample_t :=
  match good_lines rg with
  | [] => registered sm fn fn
  | [e] => registered (register_all sm fn [e]) fn e.2
  | g => register_all sm fn g

/-- Every id stored in a slot of `rg2smid` is the id of an interned sample. -/
def InvRgAll (sm : bam_sample_t) : Prop :=
  ∀ e ∈ sm.rg2smid, 0 ≤ e.2 ∧ e.2 < (sm.n : Int)

/-- States reached from `bam_smpl_init` by calls of `add_pair` and of
`bam_smpl_add` that returned 0. -/
inductive WellReached : bam_sample_t → Prop
  | init : WellReached bam_smpl_init
  | pair (sm : bam_sample_t) (key val : String) (junk : Int) (o : List Bool) :
      WellReached sm → (add_pair sm key val junk o).1 = 0 →
      WellReached (add_pair sm key val junk o).2.1
  | add (sm : bam_sample_t) (fn : String) (hdr : Option sam_hdr_t) (junk : Int)
      (o : List Bool) : WellReached sm → (bam_smpl_add sm fn hdr junk o).1 = 0 →
      WellReached (bam_smpl_add sm fn hdr junk o).2

/-! ## Lemmas on khash -/

theorem noFail_head {o : List Bool} (h : NoFail o) : (alloc o).1 = true := by
  cases o with
  | nil => rfl
  | cons b t => exact h b (List.mem_cons_self _ _)

theorem noFail_tail {o : List Bool} (h : NoFail o) : NoFail (alloc o).2 := by
  intro b hb
  exact h b (List.mem_of_mem_tail hb)

theorem kh_get_lt {h : khash_t} {key : String} {k : Nat} (hk : kh_get h key = some k) :
    k < h.length := by
  induction h generalizing k with
  | nil => simp [kh_get] at hk
  | cons e t ih =>
    simp only [kh_get] at hk
    split at hk
    · simp at hk; subst hk; simp
    · cases hg : kh_get t key with
      | none => simp [hg] at hk
      | some j =>
        simp [hg] at hk
        subst hk
        have := ih hg
        simp; omega

theorem kh_find_nil (key : String) : kh_find [] key = none := by
  simp [kh_find, kh_get]

theorem kh_find_cons (e : String × Int) (t : khash_t) (key : String) :
    kh_find (e :: t) key = if e.1 = key then some e.2 else kh_find t key := by
  unfold kh_find
  simp only [kh_get]
  split
  · simp [kh_val]
  · cases hg : kh_get t key with
    | none => simp
    | some j => simp [kh_val]

theorem kh_find_eq_none {h : khash_t} {key : String} :
    kh_find h key = none ↔ kh_get h key = none := by
  simp [kh_find]

theorem kh_find_of_get {h : khash_t} {key : String} {k : Nat} (hk : kh_get h key = some k) :
    kh_find h key = some (kh_val h k) := by
  simp [kh_find, hk]

theorem kh_get_append (h : khash_t) (k' : String) (v : Int) (key : String) :
    kh_get (h ++ [(k', v)]) key =
      match kh_get h key with
      | some i => some i
      | none => if k' = key then some h.length else none := by
  induction h with
  | nil => simp [kh_get]
  | cons e t ih =>
    rw [List.cons_append]
    simp only [kh_get]
    split
    · rfl
    · rw [ih]
      cases hg : kh_get t key with
      | none => by_cases hk : k' = key <;> simp [hk]
      | some j => simp

theorem kh_find_append (h : khash_t) (k' : String) (v : Int) (key : String) :
    kh_find (h ++ [(k', v)]) key =
      match kh_find h key with
      | some x => some x
      | none => if k' = key then some v else none := by
  induction h with
  | nil => simp [kh_find_cons, kh_find_nil]
  | cons e t ih =>
    rw [List.cons_append]
    simp only [kh_find_cons]
    split
    · rfl
    · exact ih

theorem kh_set_val_append (h : khash_t) (k : String) (j v : Int) :
    kh_set_val (h ++ [(k, j)]) h.length v = h ++ [(k, v)] := by
  simp [kh_set_val]

/-! ## What `add_pair` does and what it keeps -/

theorem add_pair_dup {sm : bam_sample_t} {key : String} (val : String) (junk : Int)
    (o : List Bool) (hk : kh_get sm.rg2smid key ≠ none) :
    add_pair sm key val junk o = (0, sm, o) := by
  unfold add_pair
  cases hg : kh_get sm.rg2smid key with
  | none => exact absurd hg hk
  | some k => rfl

theorem add_pair_cases (sm : bam_sample_t) (key val : String) (junk : Int) (o : List Bool) :
    ∃ o',
      (kh_get sm.rg2smid key ≠ none ∧ add_pair sm key val junk o = (0, sm, o')) ∨
      (kh_get sm.rg2smid key = none ∧ add_pair sm key val junk o = (-1, sm, o')) ∨
      (kh_get sm.rg2smid key = none ∧ kh_get sm.sm2id val = none ∧
        ∃ m' smpl', add_pair sm key val junk o =
            (-1, { sm with rg2smid := sm.rg2smid ++ [(key, junk)], m := m', smpl := smpl' }, o') ∧
          ((m' = sm.m ∧ smpl' = sm.smpl) ∨
           (m' = grown_m sm ∧ smpl' = (grown_smpl sm).set sm.n none))) ∨
      (kh_get sm.rg2smid key = none ∧ ∃ k, kh_get sm.sm2id val = some k ∧
        add_pair sm key val junk o =
          (0, { sm with rg2smid := sm.rg2smid ++ [(key, kh_val sm.sm2id k)] }, o')) ∨
      (kh_get sm.rg2smid key = none ∧ kh_get sm.sm2id val = none ∧
        add_pair sm key val junk o = (0, add_fresh sm key val, o')) := by
  cases hk : kh_get sm.rg2smid key with
  | some k =>
    exact ⟨o, Or.inl ⟨by simp, add_pair_dup val junk o (by simp [hk])⟩⟩
  | none =>
    by_cases h1 : (alloc o).1 = false
    · exact ⟨(alloc o).2, Or.inr (Or.inl ⟨rfl, by simp [add_pair, hk, h1]⟩)⟩
    by_cases h2 : (alloc (alloc o).2).1 = false
    · exact ⟨(alloc (alloc o).2).2, Or.inr (Or.inl ⟨rfl, by simp [add_pair, hk, h1, h2, kh_put]⟩)⟩
    cases hv : kh_get sm.sm2id val with
    | some k =>
      refine ⟨(alloc (alloc o).2).2, Or.inr (Or.inr (Or.inr (Or.inl ⟨rfl, k, rfl, ?_⟩)))⟩
      simp [add_pair, hk, h1, h2, kh_put, hv, kh_set_val_append]
    | none =>
      by_cases hf : sm.n = sm.m
      · by_cases h3 : (alloc (alloc (alloc o).2).2).1 = false
        · refine ⟨(alloc (alloc (alloc o).2).2).2,
            Or.inr (Or.inr (Or.inl ⟨rfl, rfl, sm.m, sm.smpl, ?_, Or.inl ⟨rfl, rfl⟩⟩))⟩
          simp [add_pair, hk, h1, h2, kh_put, hv, hf, h3]
        by_cases h4 : (alloc (alloc (alloc (alloc o).2).2).2).1 = false
        · refine ⟨(alloc (alloc (alloc (alloc o).2).2).2).2,
            Or.inr (Or.inr (Or.inl ⟨rfl, rfl, grown_m sm, (grown_smpl sm).set sm.n none, ?_,
              Or.inr ⟨rfl, rfl⟩⟩))⟩
          simp [add_pair, hk, h1, h2, kh_put, hv, hf, h3, h4, grown_m, grown_smpl]
        by_cases h5 : (alloc (alloc (alloc (alloc (alloc o).2).2).2).2).1 = false
        · refine ⟨(alloc (alloc (alloc (alloc (alloc o).2).2).2).2).2,
            Or.inr (Or.inr (Or.inl ⟨rfl, rfl, grown_m sm, (grown_smpl sm).set sm.n none, ?_,
              Or.inr ⟨rfl, rfl⟩⟩))⟩
          simp [add_pair, hk, h1, h2, kh_put, hv, hf, h3, h4, h5, grown_m, grown_smpl]
        · refine ⟨(alloc (alloc (alloc (alloc (alloc o).2).2).2).2).2,
            Or.inr (Or.inr (Or.inr (Or.inr ⟨rfl, rfl, ?_⟩)))⟩
          simp [add_pair, hk, h1, h2, kh_put, hv, hf, h3, h4, h5, grown_m, grown_smpl,
            add_fresh, kh_set_val_append, kh_val]
      · by_cases h4 : (alloc (alloc (alloc o).2).2).1 = false
        · refine ⟨(alloc (alloc (alloc o).2).2).2,
            Or.inr (Or.inr (Or.inl ⟨rfl, rfl, grown_m sm, (grown_smpl sm).set sm.n none, ?_,
              Or.inr ⟨rfl, rfl⟩⟩))⟩
          simp [add_pair, hk, h1, h2, kh_put, hv, hf, h4, grown_m, grown_smpl]
        by_cases h5 : (alloc (alloc (alloc (alloc o).2).2).2).1 = false
        · refine ⟨(alloc (alloc (alloc (alloc o).2).2).2).2,
            Or.inr (Or.inr (Or.inl ⟨rfl, rfl, grown_m sm, (grown_smpl sm).set sm.n none, ?_,
              Or.inr ⟨rfl, rfl⟩⟩))⟩
          simp [add_pair, hk, h1, h2, kh_put, hv, hf, h4, h5, grown_m, grown_smpl]
        · refine ⟨(alloc (alloc (alloc (alloc o).2).2).2).2,
            Or.inr (Or.inr (Or.inr (Or.inr ⟨rfl, rfl, ?_⟩)))⟩
          simp [add_pair, hk, h1, h2, kh_put, hv, hf, h4, h5, grown_m, grown_smpl,
            add_fresh, kh_set_val_append, kh_val]

theorem add_pair_ok (sm : bam_sample_t) (key val : String) (junk : Int) {o : List Bool}
    (ho : NoFail o) :
    (add_pair sm key val junk o).1 = 0 ∧ (add_pair sm key val junk o).2.1 = registered sm key val ∧
      NoFail (add_pair sm key val junk o).2.2 := by
  have h1 := noFail_head ho
  have t1 := noFail_tail ho
  have h2 := noFail_head t1
  have t2 := noFail_tail t1
  have h3 := noFail_head t2
  have t3 := noFail_tail t2
  have h4 := noFail_head t3
  have t4 := noFail_tail t3
  have h5 := noFail_head t4
  have t5 := noFail_tail t4
  cases hk : kh_get sm.rg2smid key with
  | some k => simp [add_pair, registered, hk, ho]
  | none =>
    cases hv : kh_get sm.sm2id val with
    | some k => simp [add_pair, registered, hk, hv, h1, h2, kh_put, kh_set_val_append, t2]
    | none =>
      by_cases hf : sm.n = sm.m
      · simp [add_pair, registered, hk, hv, h1, h2, h3, h4, h5, kh_put, kh_set_val_append, hf,
          add_fresh, grown_m, grown_smpl, kh_val, t5]
      · simp [add_pair, registered, hk, hv, h1, h2, h3, h4, kh_put, kh_set_val_append, hf,
          add_fresh, grown_m, grown_smpl, kh_val, t4]

theorem add_pair_ret (sm : bam_sample_t) (key val : String) (junk : Int) (o : List Bool) :
    (add_pair sm key val junk o).1 = 0 ∨ (add_pair sm key val junk o).1 = -1 := by
  obtain ⟨o', h | h | h | h | h⟩ := add_pair_cases sm key val junk o
  · simp [h.2]
  · simp [h.2]
  · obtain ⟨_, _, m', smpl', e, _⟩ := h; simp [e]
  · obtain ⟨_, k, _, e⟩ := h; simp [e]
  · simp [h.2.2]

theorem ext_refl (sm : bam_sample_t) : Ext sm sm :=
  ⟨fun _ _ h => h, fun _ _ h => h, le_refl _, fun _ _ => rfl⟩

theorem ext_trans {a b c : bam_sample_t} (h1 : Ext a b) (h2 : Ext b c) : Ext a c :=
  ⟨fun k v h => h2.1 k v (h1.1 k v h), fun s i h => h2.2.1 s i (h1.2.1 s i h),
    le_trans h1.2.2.1 h2.2.2.1,
    fun j hj => (h2.2.2.2 j (lt_of_lt_of_le hj h1.2.2.1)).trans (h1.2.2.2 j hj)⟩

theorem kh_find_append_of_some {h : khash_t} {key : String} {x : Int} (k' : String) (v : Int)
    (hx : kh_find h key = some x) : kh_find (h ++ [(k', v)]) key = some x := by
  rw [kh_find_append, hx]

theorem kh_find_append_new {h : khash_t} {key : String} (v : Int)
    (hx : kh_find h key = none) : kh_find (h ++ [(key, v)]) key = some v := by
  rw [kh_find_append, hx]; simp

theorem kh_find_append_ne {h : khash_t} {key k' : String} (v : Int)
    (hne : k' ≠ key) : kh_find (h ++ [(k', v)]) key = kh_find h key := by
  rw [kh_find_append]
  cases kh_find h key <;> simp [hne]

theorem grown_smpl_get (sm : bam_sample_t) (hl : sm.smpl.length = sm.m) {j : Nat}
    (hj : j < sm.m) : (grown_smpl sm)[j]? = sm.smpl[j]? := by
  unfold grown_smpl realloc_smpl
  split
  · have hlt : j < (if sm.m ≠ 0 then sm.m * 2 else 1) := by split <;> omega
    rw [List.getElem?_take_of_lt hlt, List.getElem?_append_left (by omega)]
  · rfl

theorem grown_smpl_length (sm : bam_sample_t) (hl : sm.smpl.length = sm.m) :
    (grown_smpl sm).length = grown_m sm := by
  unfold grown_smpl grown_m realloc_smpl
  split
  · simp
  · exact hl

theorem grown_m_gt (sm : bam_sample_t) (h : sm.n ≤ sm.m) : sm.n < grown_m sm := by
  unfold grown_m
  split
  · split <;> omega
  · omega

theorem invSm_congr {sm sm' : bam_sample_t} (h : InvSm sm) (hn : sm'.n = sm.n)
    (h2 : sm'.sm2id = sm.sm2id) (hm : sm.n ≤ sm'.m) (hl : sm'.smpl.length = sm'.m)
    (hp : ∀ j : Nat, j < sm.n → sm'.smpl[j]? = sm.smpl[j]?) : InvSm sm' := by
  obtain ⟨_, _, h3, h4⟩ := h
  refine ⟨by omega, hl, ?_, ?_⟩
  · intro s i hs
    rw [h2] at hs
    obtain ⟨j, hi, hj, hg⟩ := h3 s i hs
    exact ⟨j, hi, by omega, by rw [hp j hj]; exact hg⟩
  · intro j hj
    rw [hn] at hj
    obtain ⟨s, hg, hs⟩ := h4 j hj
    exact ⟨s, by rw [hp j hj]; exact hg, by rw [h2]; exact hs⟩

theorem grown_set_get (sm : bam_sample_t) (h : InvSm sm) (x : Option String) {j : Nat}
    (hj : j < sm.n) : ((grown_smpl sm).set sm.n x)[j]? = sm.smpl[j]? := by
  rw [List.getElem?_set_ne (by omega)]
  exact grown_smpl_get sm h.2.1 (by have := h.1; omega)

theorem grown_set_self (sm : bam_sample_t) (h : InvSm sm) (x : Option String) :
    ((grown_smpl sm).set sm.n x)[sm.n]? = some x := by
  rw [List.getElem?_set_self]
  rw [grown_smpl_length sm h.2.1]
  exact grown_m_gt sm h.1

theorem invSm_add_fresh {sm : bam_sample_t} (h : InvSm sm) (key : String) {val : String}
    (hv : kh_find sm.sm2id val = none) : InvSm (add_fresh sm key val) := by
  have hgt := grown_m_gt sm h.1
  refine ⟨?_, ?_, ?_, ?_⟩
  · show sm.n + 1 ≤ grown_m sm
    omega
  · show ((grown_smpl sm).set sm.n (some val)).length = grown_m sm
    rw [List.length_set]
    exact grown_smpl_length sm h.2.1
  · intro s i hs
    change kh_find (sm.sm2id ++ [(val, (sm.n : Int))]) s = some i at hs
    rw [kh_find_append] at hs
    cases hf : kh_find sm.sm2id s with
    | some x =>
      rw [hf] at hs
      simp only [Option.some.injEq] at hs
      subst hs
      obtain ⟨j, hi, hj, hg⟩ := h.2.2.1 s x hf
      refine ⟨j, hi, ?_, ?_⟩
      · show j < sm.n + 1
        omega
      · show ((grown_smpl sm).set sm.n (some val))[j]? = some (some s)
        rw [grown_set_get sm h _ hj]
        exact hg
    | none =>
      rw [hf] at hs
      by_cases hq : val = s
      · simp only [hq, if_true, Option.some.injEq] at hs
        subst hq
        refine ⟨sm.n, hs.symm, ?_, ?_⟩
        · show sm.n < sm.n + 1
          omega
        · show ((grown_smpl sm).set sm.n (some val))[sm.n]? = some (some val)
          exact grown_set_self sm h _
      · simp [hq] at hs
  · intro j hj
    change j < sm.n + 1 at hj
    by_cases hlt : j < sm.n
    · obtain ⟨s, hg, hs⟩ := h.2.2.2 j hlt
      refine ⟨s, ?_, ?_⟩
      · show ((grown_smpl sm).set sm.n (some val))[j]? = some (some s)
        rw [grown_set_get sm h _ hlt]
        exact hg
      · show kh_find (sm.sm2id ++ [(val, (sm.n : Int))]) s = some (j : Int)
        exact kh_find_append_of_some _ _ hs
    · have hje : j = sm.n := by omega
      subst hje
      refine ⟨val, grown_set_self sm h _, ?_⟩
      show kh_find (sm.sm2id ++ [(val, (sm.n : Int))]) val = some (sm.n : Int)
      exact kh_find_append_new _ hv

theorem ext_add_fresh {sm : bam_sample_t} (h : InvSm sm) (key val : String) :
    Ext sm (add_fresh sm key val) := by
  refine ⟨?_, ?_, ?_, ?_⟩
  · intro k v hk
    exact kh_find_append_of_some _ _ hk
  · intro s i hs
    exact kh_find_append_of_some _ _ hs
  · show sm.n ≤ sm.n + 1
    omega
  · intro j hj
    exact grown_set_get sm h _ hj

theorem ext_rg_append (sm : bam_sample_t) (key : String) (v : Int) :
    Ext sm { sm with rg2smid := sm.rg2smid ++ [(key, v)] } :=
  ⟨fun _ _ hk => kh_find_append_of_some _ _ hk, fun _ _ h => h, le_refl _, fun _ _ => rfl⟩

theorem add_pair_invSm {sm : bam_sample_t} (h : InvSm sm) (key val : String) (junk : Int)
    (o : List Bool) : InvSm (add_pair sm key val junk o).2.1 := by
  obtain ⟨o', c | c | c | c | c⟩ := add_pair_cases sm key val junk o
  · rw [c.2]; exact h
  · rw [c.2]; exact h
  · obtain ⟨_, _, m', smpl', e, hm | hm⟩ := c
    · rw [e, hm.1, hm.2]
      exact invSm_congr h rfl rfl h.1 h.2.1 (fun _ _ => rfl)
    · rw [e, hm.1, hm.2]
      refine invSm_congr h rfl rfl (le_of_lt (grown_m_gt sm h.1)) ?_
        (fun j hj => grown_set_get sm h _ hj)
      show ((grown_smpl sm).set sm.n none).length = grown_m sm
      rw [List.length_set]
      exact grown_smpl_length sm h.2.1
  · obtain ⟨_, k, _, e⟩ := c
    rw [e]
    exact invSm_congr h rfl rfl h.1 h.2.1 (fun _ _ => rfl)
  · rw [c.2.2]
    exact invSm_add_fresh h key (kh_find_eq_none.mpr c.2.1)

theorem add_pair_ext {sm : bam_sample_t} (h : InvSm sm) (key val : String) (junk : Int)
    (o : List Bool) : Ext sm (add_pair sm key val junk o).2.1 := by
  obtain ⟨o', c | c | c | c | c⟩ := add_pair_cases sm key val junk o
  · rw [c.2]; exact ext_refl sm
  · rw [c.2]; exact ext_refl sm
  · obtain ⟨_, _, m', smpl', e, hm | hm⟩ := c
    · rw [e, hm.1, hm.2]
      exact ext_rg_append sm key junk
    · rw [e, hm.1, hm.2]
      exact ⟨fun _ _ hk => kh_find_append_of_some _ _ hk, fun _ _ h => h, le_refl _,
        fun j hj => grown_set_get sm h _ hj⟩
  · obtain ⟨_, k, _, e⟩ := c
    rw [e]
    exact ext_rg_append sm key _
  · rw [c.2.2]
    exact ext_add_fresh h key val

theorem add_pair_frame (sm : bam_sample_t) {key k : String} (val : String) (junk : Int)
    (o : List Bool) (hne : key ≠ k) :
    kh_find (add_pair sm key val junk o).2.1.rg2smid k = kh_find sm.rg2smid k := by
  obtain ⟨o', c | c | c | c | c⟩ := add_pair_cases sm key val junk o
  · rw [c.2]
  · rw [c.2]
  · obtain ⟨_, _, m', smpl', e, _⟩ := c
    rw [e]
    exact kh_find_append_ne _ hne
  · obtain ⟨_, k', _, e⟩ := c
    rw [e]
    exact kh_find_append_ne _ hne
  · rw [c.2.2]
    exact kh_find_append_ne _ hne

theorem add_pair_new (sm : bam_sample_t) {key : String} (val : String) (junk : Int)
    (o : List Bool) (hk : kh_find sm.rg2smid key = none)
    (hr : (add_pair sm key val junk o).1 = 0) :
    ∃ i, kh_find (add_pair sm key val junk o).2.1.rg2smid key = some i ∧
      kh_find (add_pair sm key val junk o).2.1.sm2id val = some i := by
  obtain ⟨o', c | c | c | c | c⟩ := add_pair_cases sm key val junk o
  · exact absurd (kh_find_eq_none.mp hk) c.1
  · rw [c.2] at hr; simp at hr
  · obtain ⟨_, _, m', smpl', e, _⟩ := c
    rw [e] at hr; simp at hr
  · obtain ⟨_, k', hv, e⟩ := c
    rw [e]
    exact ⟨kh_val sm.sm2id k', kh_find_append_new _ hk, kh_find_of_get hv⟩
  · rw [c.2.2]
    exact ⟨(sm.n : Int), kh_find_append_new _ hk,
      kh_find_append_new _ (kh_find_eq_none.mpr c.2.1)⟩

theorem add_pair_invRg {sm : bam_sample_t} (h : InvSm sm) (hr : InvRg sm) (key val : String)
    (junk : Int) (o : List Bool) (h0 : (add_pair sm key val junk o).1 = 0) :
    InvRg (add_pair sm key val junk o).2.1 := by
  obtain ⟨o', c | c | c | c | c⟩ := add_pair_cases sm key val junk o
  · rw [c.2]; exact hr
  · rw [c.2]; exact hr
  · obtain ⟨_, _, m', smpl', e, _⟩ := c
    rw [e] at h0; simp at h0
  · obtain ⟨hk, k', hv, e⟩ := c
    rw [e]
    intro k i hi
    change kh_find (sm.rg2smid ++ [(key, kh_val sm.sm2id k')]) k = some i at hi
    rw [kh_find_append] at hi
    cases hf : kh_find sm.rg2smid k with
    | some x =>
      rw [hf] at hi
      simp only [Option.some.injEq] at hi
      subst hi
      exact hr k x hf
    | none =>
      rw [hf] at hi
      by_cases hq : key = k
      · simp only [hq, if_true, Option.some.injEq] at hi
        obtain ⟨j, hj, hlt, _⟩ := h.2.2.1 val _ (kh_find_of_get hv)
        show 0 ≤ i ∧ i < (sm.n : Int)
        omega
      · simp [hq] at hi
  · rw [c.2.2]
    intro k i hi
    change kh_find (sm.rg2smid ++ [(key, (sm.n : Int))]) k = some i at hi
    show 0 ≤ i ∧ i < ((sm.n + 1 : Nat) : Int)
    rw [kh_find_append] at hi
    cases hf : kh_find sm.rg2smid k with
    | some x =>
      rw [hf] at hi
      simp only [Option.some.injEq] at hi
      subst hi
      have := hr k x hf
      omega
    | none =>
      rw [hf] at hi
      by_cases hq : key = k
      · simp only [hq, if_true, Option.some.injEq] at hi
        omega
      · simp [hq] at hi

theorem noFail_nil : NoFail [] := by
  intro b hb
  cases hb

theorem registered_eq (sm : bam_sample_t) (key val : String) :
    registered sm key val = (add_pair sm key val 0 []).2.1 :=
  (add_pair_ok sm key val 0 noFail_nil).2.1.symm

theorem registered_invSm {sm : bam_sample_t} (h : InvSm sm) (key val : String) :
    InvSm (registered sm key val) := by
  rw [registered_eq]; exact add_pair_invSm h key val 0 []

theorem registered_ext {sm : bam_sample_t} (h : InvSm sm) (key val : String) :
    Ext sm (registered sm key val) := by
  rw [registered_eq]; exact add_pair_ext h key val 0 []

theorem registered_frame (sm : bam_sample_t) {key k : String} (val : String) (hne : key ≠ k) :
    kh_find (registered sm key val).rg2smid k = kh_find sm.rg2smid k := by
  rw [registered_eq]; exact add_pair_frame sm val 0 [] hne

theorem registered_new (sm : bam_sample_t) {key : String} (val : String)
    (hk : kh_find sm.rg2smid key = none) :
    ∃ i, kh_find (registered sm key val).rg2smid key = some i ∧
      kh_find (registered sm key val).sm2id val = some i := by
  rw [registered_eq]
  exact add_pair_new sm val 0 [] hk (add_pair_ok sm key val 0 noFail_nil).1

theorem registered_invRg {sm : bam_sample_t} (h : InvSm sm) (hr : InvRg sm) (key val : String) :
    InvRg (registered sm key val) := by
  rw [registered_eq]
  exact add_pair_invRg h hr key val 0 [] (add_pair_ok sm key val 0 noFail_nil).1

theorem registered_dup {sm : bam_sample_t} {key : String} (val : String)
    (hk : kh_find sm.rg2smid key ≠ none) : registered sm key val = sm := by
  have hg : kh_get sm.rg2smid key ≠ none := fun h => hk (kh_find_eq_none.mpr h)
  rw [registered_eq, add_pair_dup val 0 [] hg]

/-! ## The loop of `bam_smpl_add` -/

theorem kputs_key (fn id : String) :
    (kputs id (kputs "/" (kputs fn "" true).2 true).2 true).2 = fn ++ "/" ++ id := by
  simp [kputs]

theorem rg_loop_ok (hdr : sam_hdr_t) (hp : hdr.parse_ok = true) (fn : String) (junk : Int) :
    ∀ (todo i : Nat) (sm : bam_sample_t) (first : Option String) (n : Nat) (o : List Bool),
      NoFail o → todo = hdr.rg.length - i →
      ∃ o', NoFail o' ∧ rg_loop hdr fn junk todo i sm first n o =
        (true, register_all sm fn (good_lines (hdr.rg.drop i)),
          first_of first (good_lines (hdr.rg.drop i)),
          n + (good_lines (hdr.rg.drop i)).length, o') := by
  intro todo
  induction todo with
  | zero =>
    intro i sm first n o ho ht
    have hd : hdr.rg.drop i = [] := List.drop_eq_nil_of_le (by omega)
    refine ⟨o, ho, ?_⟩
    rw [hd]
    cases first <;> simp [rg_loop, good_lines, register_all, first_of]
  | succ todo ih =>
    intro i sm first n o ho ht
    have hi : i < hdr.rg.length := by omega
    have hd : hdr.rg.drop i = hdr.rg[i] :: hdr.rg.drop (i + 1) := List.drop_eq_getElem_cons hi
    have h1 := noFail_head ho
    have t1 := noFail_tail ho
    have h2 := noFail_head t1
    have t2 := noFail_tail t1
    have h3 := noFail_head t2
    have t3 := noFail_tail t2
    have h4 := noFail_head t3
    have t4 := noFail_tail t3
    have h5 := noFail_head t4
    have t5 := noFail_tail t4
    rw [hd]
    cases hid : find_key hdr.rg[i] "ID" with
    | none =>
      refine ⟨(alloc o).2, t1, ?_⟩
      cases first <;>
        simp [rg_loop, sam_hdr_find_tag_pos, hp, hi, hid, good_lines, register_all, first_of]
    | some id =>
      cases hsm : find_key hdr.rg[i] "SM" with
      | none =>
        refine ⟨(alloc (alloc o).2).2, t2, ?_⟩
        cases first <;>
          simp [rg_loop, sam_hdr_find_tag_pos, hp, hi, hid, hsm, h1, good_lines, register_all,
            first_of]
      | some smv =>
        obtain ⟨a0, a1, a2⟩ := add_pair_ok sm (fn ++ "/" ++ id) smv junk t5
        obtain ⟨o', ho', e⟩ := ih (i + 1) (registered sm (fn ++ "/" ++ id) smv)
          (match first with
            | none => some smv
            | some f => some f) (n + 1) _ a2 (by omega)
        refine ⟨o', ho', ?_⟩
        have hk : "" ++ fn ++ "/" ++ id = fn ++ "/" ++ id := by simp
        simp only [rg_loop, sam_hdr_find_tag_pos, hp, hi, hid, hsm, h1, h2, h3, h4, h5, kputs]
        simp only [List.get?_eq_getElem?, List.getElem?_eq_getElem hi, hid, hsm, hk, a0, a1]
        simp only [good_lines, hid, hsm, register_all]
        have hl : ∀ s : String, ¬ ((s.length : Int) < 0) := fun s => by omega
        simp [hl, a0, a1]
        rw [e]
        cases first <;> simp [first_of] <;> omega

theorem add_pair_ret_zero {sm : bam_sample_t} {key val : String} {junk : Int} {o : List Bool}
    (h : ¬ (add_pair sm key val junk o).1 < 0) : (add_pair sm key val junk o).1 = 0 := by
  rcases add_pair_ret sm key val junk o with h0 | h1
  · exact h0
  · rw [h1] at h; exact absurd (by decide) h

theorem rg_loop_inv (hdr : sam_hdr_t) (fn : String) (junk : Int) :
    ∀ (todo i : Nat) (sm : bam_sample_t) (first : Option String) (n : Nat) (o : List Bool),
      InvSm sm →
      InvSm (rg_loop hdr fn junk todo i sm first n o).2.1 ∧
      Ext sm (rg_loop hdr fn junk todo i sm first n o).2.1 ∧
      (InvRg sm → (rg_loop hdr fn junk todo i sm first n o).1 = true →
        InvRg (rg_loop hdr fn junk todo i sm first n o).2.1) := by
  intro todo
  induction todo with
  | zero =>
    intro i sm first n o h
    exact ⟨h, ext_refl sm, fun hr _ => hr⟩
  | succ todo ih =>
    intro i sm first n o h
    simp only [rg_loop]
    split
    · exact ⟨h, ext_refl sm, fun hr _ => hr⟩
    · split
      · exact ⟨h, ext_refl sm, fun hr _ => hr⟩
      · split
        · exact ⟨h, ext_refl sm, fun hr _ => hr⟩
        · split
          · exact ⟨h, ext_refl sm, fun hr _ => hr⟩
          · split
            · exact ⟨h, ext_refl sm, fun hr _ => hr⟩
            · split
              · exact ⟨add_pair_invSm h _ _ _ _, add_pair_ext h _ _ _ _, fun _ hf => by simp at hf⟩
              · rename_i hneg
                have h0 := add_pair_ret_zero hneg
                obtain ⟨q1, q2, q3⟩ := ih (i + 1) _ _ (n + 1) _ (add_pair_invSm h _ _ junk _)
                exact ⟨q1, ext_trans (add_pair_ext h _ _ _ _) q2,
                  fun hr ht => q3 (add_pair_invRg h hr _ _ _ _ h0) ht⟩

/-! ## What `bam_smpl_add` does -/

theorem bam_smpl_add_null (sm : bam_sample_t) (fn : String) (junk : Int) {o : List Bool}
    (ho : NoFail o) : bam_smpl_add sm fn none junk o = (0, registered sm fn fn) := by
  obtain ⟨a0, a1, _⟩ := add_pair_ok sm fn fn junk ho
  simp [bam_smpl_add, a0, a1]

theorem bam_smpl_add_ok (sm : bam_sample_t) (fn : String) (hdr : sam_hdr_t) (junk : Int)
    {o : List Bool} (hp : hdr.parse_ok = true) (ho : NoFail o) :
    bam_smpl_add sm fn (some hdr) junk o = (0, added sm fn hdr.rg) := by
  obtain ⟨o', ho', e⟩ := rg_loop_ok hdr hp fn junk hdr.rg.length 0 sm none 0 o ho (by simp)
  have hc : sam_hdr_count_lines hdr = (hdr.rg.length : Int) := by simp [sam_hdr_count_lines, hp]
  have hl : ¬ ((hdr.rg.length : Int) < 0) := by omega
  simp only [bam_smpl_add, hc, hl, if_false, Int.toNat_ofNat, e, List.drop_zero]
  unfold added
  cases hg : good_lines hdr.rg with
  | nil =>
    obtain ⟨a0, a1, _⟩ := add_pair_ok sm fn fn junk ho'
    simp [register_all, a0, a1]
  | cons e1 rest =>
    cases rest with
    | nil =>
      obtain ⟨a0, a1, _⟩ := add_pair_ok (register_all sm fn [e1]) fn e1.2 junk ho'
      simp [first_of, a0, a1]
    | cons e2 rest => simp [first_of]

theorem bam_smpl_add_inv (sm : bam_sample_t) (fn : String) (hdr : Option sam_hdr_t)
    (junk : Int) (o : List Bool) (h : InvSm sm) :
    InvSm (bam_smpl_add sm fn hdr junk o).2 ∧ Ext sm (bam_smpl_add sm fn hdr junk o).2 ∧
    (InvRg sm → (bam_smpl_add sm fn hdr junk o).1 = 0 →
      InvRg (bam_smpl_add sm fn hdr junk o).2) := by
  cases hdr with
  | none =>
    exact ⟨add_pair_invSm h _ _ _ _, add_pair_ext h _ _ _ _,
      fun hr h0 => add_pair_invRg h hr _ _ _ _ h0⟩
  | some hdr =>
    simp only [bam_smpl_add]
    split
    · exact ⟨h, ext_refl sm, fun hr _ => hr⟩
    · obtain ⟨q1, q2, q3⟩ := rg_loop_inv hdr fn junk (sam_hdr_count_lines hdr).toNat 0 sm none 0 o h
      split
      · exact ⟨q1, q2, fun _ hf => by simp at hf⟩
      · rename_i hl
        have hl' : (rg_loop hdr fn junk (sam_hdr_count_lines hdr).toNat 0 sm none 0 o).1 = true := by
          simpa using hl
        split
        · split
          · exact ⟨add_pair_invSm q1 _ _ _ _, ext_trans q2 (add_pair_ext q1 _ _ _ _),
              fun _ hf => by simp at hf⟩
          · rename_i hneg
            exact ⟨add_pair_invSm q1 _ _ _ _, ext_trans q2 (add_pair_ext q1 _ _ _ _),
              fun hr _ => add_pair_invRg q1 (q3 hr hl') _ _ _ _ (add_pair_ret_zero hneg)⟩
        · split
          · split
            · split
              · exact ⟨add_pair_invSm q1 _ _ _ _, ext_trans q2 (add_pair_ext q1 _ _ _ _),
                  fun _ hf => by simp at hf⟩
              · rename_i hneg
                exact ⟨add_pair_invSm q1 _ _ _ _, ext_trans q2 (add_pair_ext q1 _ _ _ _),
                  fun hr _ => add_pair_invRg q1 (q3 hr hl') _ _ _ _ (add_pair_ret_zero hneg)⟩
            · exact ⟨q1, q2, fun hr _ => q3 hr hl'⟩
          · exact ⟨q1, q2, fun hr _ => q3 hr hl'⟩

theorem invSm_init : InvSm bam_smpl_init := by
  refine ⟨le_refl _, rfl, ?_, ?_⟩
  · intro s i hs
    simp [bam_smpl_init, kh_init, kh_find_nil] at hs
  · intro j hj
    simp [bam_smpl_init] at hj

theorem invRg_init : InvRg bam_smpl_init := by
  intro k i hi
  simp [bam_smpl_init, kh_init, kh_find_nil] at hi

theorem reachable_invSm {sm : bam_sample_t} (h : Reachable sm) : InvSm sm := by
  induction h with
  | init => exact invSm_init
  | add sm fn hdr junk o _ ih => exact (bam_smpl_add_inv sm fn hdr junk o ih).1

theorem reachable0_inv {sm : bam_sample_t} (h : Reachable0 sm) : InvSm sm ∧ InvRg sm := by
  induction h with
  | init => exact ⟨invSm_init, invRg_init⟩
  | add sm fn hdr junk o _ h0 ih =>
    obtain ⟨q1, _, q3⟩ := bam_smpl_add_inv sm fn hdr junk o ih.1
    exact ⟨q1, q3 ih.2 h0⟩

theorem reachable_of_reachable0 {sm : bam_sample_t} (h : Reachable0 sm) : Reachable sm := by
  induction h with
  | init => exact Reachable.init
  | add sm fn hdr junk o _ _ ih => exact Reachable.add sm fn hdr junk o ih

/-! ## Keys and lookups -/

theorem key_inj {fn a b : String} (h : fn ++ "/" ++ a = fn ++ "/" ++ b) : a = b := by
  have hd := congrArg String.data h
  simp only [String.data_append, List.append_assoc] at hd
  exact String.ext (List.append_cancel_left (List.append_cancel_left hd))

theorem key_ne_bare (fn a : String) : fn ++ "/" ++ a ≠ fn := by
  intro h
  have hl := congrArg String.length h
  have h1 : "/".length = 1 := rfl
  simp only [String.length_append, h1] at hl
  omega

theorem rg2smid_eq (sm : bam_sample_t) (fn : String) (rg : Option String) :
    bam_smpl_rg2smid sm fn rg = (kh_find sm.rg2smid (compose_key fn rg)).getD (-1) := by
  cases rg with
  | none =>
    simp only [bam_smpl_rg2smid, compose_key, kh_find]
    cases kh_get sm.rg2smid fn <;> rfl
  | some r =>
    simp only [bam_smpl_rg2smid, compose_key, kh_find, kputs_key]
    cases kh_get sm.rg2smid (fn ++ "/" ++ r) <;> rfl

theorem rg2smid_of_find {sm : bam_sample_t} {fn : String} {rg : Option String} {i : Int}
    (h : kh_find sm.rg2smid (compose_key fn rg) = some i) : bam_smpl_rg2smid sm fn rg = i := by
  rw [rg2smid_eq, h]; rfl

theorem rg2smid_of_none {sm : bam_sample_t} {fn : String} {rg : Option String}
    (h : kh_find sm.rg2smid (compose_key fn rg) = none) : bam_smpl_rg2smid sm fn rg = -1 := by
  rw [rg2smid_eq, h]; rfl

theorem register_all_inv (fn : String) :
    ∀ (g : List (String × String)) (sm : bam_sample_t), InvSm sm →
      InvSm (register_all sm fn g) ∧ Ext sm (register_all sm fn g) ∧
      (InvRg sm → InvRg (register_all sm fn g)) := by
  intro g
  induction g with
  | nil => intro sm h; exact ⟨h, ext_refl sm, fun hr => hr⟩
  | cons e rest ih =>
    intro sm h
    obtain ⟨q1, q2, q3⟩ := ih (registered sm (fn ++ "/" ++ e.1) e.2) (registered_invSm h _ _)
    exact ⟨q1, ext_trans (registered_ext h _ _) q2, fun hr => q3 (registered_invRg h hr _ _)⟩

theorem register_all_frame (fn : String) {k : String} :
    ∀ (g : List (String × String)) (sm : bam_sample_t),
      (∀ e ∈ g, fn ++ "/" ++ e.1 ≠ k) →
      kh_find (register_all sm fn g).rg2smid k = kh_find sm.rg2smid k := by
  intro g
  induction g with
  | nil => intro sm _; rfl
  | cons e rest ih =>
    intro sm hne
    simp only [register_all]
    rw [ih _ (fun e' he' => hne e' (List.mem_cons_of_mem _ he'))]
    exact registered_frame sm _ (hne e (List.mem_cons_self _ _))

theorem register_all_registered (fn : String) :
    ∀ (g : List (String × String)) (sm : bam_sample_t), InvSm sm →
      ∀ e ∈ g, kh_find (register_all sm fn g).rg2smid (fn ++ "/" ++ e.1) ≠ none := by
  intro g
  induction g with
  | nil => intro sm _ e he; cases he
  | cons e0 rest ih =>
    intro sm h e he
    simp only [register_all]
    have h1 := registered_invSm h (fn ++ "/" ++ e0.1) e0.2
    rcases List.mem_cons.mp he with heq | hmem
    · subst heq
      have hreg : kh_find (registered sm (fn ++ "/" ++ e.1) e.2).rg2smid (fn ++ "/" ++ e.1) ≠ none := by
        cases hk : kh_find sm.rg2smid (fn ++ "/" ++ e.1) with
        | none =>
          obtain ⟨i, hi, _⟩ := registered_new sm e.2 hk
          rw [hi]; simp
        | some v =>
          rw [registered_dup e.2 (by rw [hk]; simp), hk]; simp
      cases hq : kh_find (registered sm (fn ++ "/" ++ e.1) e.2).rg2smid (fn ++ "/" ++ e.1) with
      | none => exact absurd hq hreg
      | some v =>
        rw [(register_all_inv fn rest _ h1).2.1.1 _ v hq]; simp
    · exact ih _ h1 e hmem

theorem register_all_spec (fn : String) :
    ∀ (g : List (String × String)) (sm : bam_sample_t), InvSm sm →
      (g.map (·.1)).Nodup →
      (∀ e ∈ g, kh_find sm.rg2smid (fn ++ "/" ++ e.1) = none) →
      ∀ e ∈ g, ∃ i, kh_find (register_all sm fn g).rg2smid (fn ++ "/" ++ e.1) = some i ∧
        kh_find (register_all sm fn g).sm2id e.2 = some i := by
  intro g
  induction g with
  | nil => intro sm _ _ _ e he; cases he
  | cons e0 rest ih =>
    intro sm h hnd hnew e he
    simp only [register_all]
    have h1 := registered_invSm h (fn ++ "/" ++ e0.1) e0.2
    have hx := (register_all_inv fn rest _ h1).2.1
    simp only [List.map_cons, List.nodup_cons] at hnd
    rcases List.mem_cons.mp he with heq | hmem
    · subst heq
      obtain ⟨i, hi, hs⟩ := registered_new sm e.2 (hnew e (List.mem_cons_self _ _))
      exact ⟨i, hx.1 _ _ hi, hx.2.1 _ _ hs⟩
    · refine ih _ h1 hnd.2 ?_ e hmem
      intro e' he'
      have hne : fn ++ "/" ++ e0.1 ≠ fn ++ "/" ++ e'.1 := by
        intro hk
        have := key_inj hk
        exact hnd.1 (by rw [this]; exact List.mem_map_of_mem _ he')
      rw [registered_frame sm e0.2 hne]
      exact hnew e' (List.mem_cons_of_mem _ he')

/-! ## The lines the loop gets to -/

theorem mem_good_lines {rg : List (List (String × String))} {e : String × String}
    (he : e ∈ good_lines rg) :
    ∃ line ∈ rg, find_key line "ID" = some e.1 ∧ find_key line "SM" = some e.2 := by
  induction rg with
  | nil => simp [good_lines] at he
  | cons line rest ih =>
    cases hid : find_key line "ID" with
    | none => simp [good_lines, hid] at he
    | some id =>
      cases hsm : find_key line "SM" with
      | none => simp [good_lines, hid, hsm] at he
      | some s =>
        simp only [good_lines, hid, hsm, List.mem_cons] at he
        rcases he with heq | hmem
        · subst heq
          exact ⟨line, List.mem_cons_self _ _, hid, hsm⟩
        · obtain ⟨l, hl, h1, h2⟩ := ih hmem
          exact ⟨l, List.mem_cons_of_mem _ hl, h1, h2⟩

theorem good_lines_all {rg : List (List (String × String))}
    (hall : ∀ line ∈ rg, ∃ id s, find_key line "ID" = some id ∧ find_key line "SM" = some s) :
    (∀ line ∈ rg, ∀ id s, find_key line "ID" = some id → find_key line "SM" = some s →
      (id, s) ∈ good_lines rg) ∧
    (good_lines rg).map (fun e => some e.1) = rg.map (fun line => find_key line "ID") := by
  induction rg with
  | nil => simp [good_lines]
  | cons line rest ih =>
    obtain ⟨id0, s0, hid, hsm⟩ := hall line (List.mem_cons_self _ _)
    obtain ⟨q1, q2⟩ := ih (fun l hl => hall l (List.mem_cons_of_mem _ hl))
    constructor
    · intro l hl id s h1 h2
      simp only [good_lines, hid, hsm, List.mem_cons]
      rcases List.mem_cons.mp hl with heq | hmem
      · subst heq
        rw [hid] at h1; rw [hsm] at h2
        simp only [Option.some.injEq] at h1 h2
        left; rw [h1, h2]
      · right; exact q1 l hmem id s h1 h2
    · simp only [good_lines, hid, hsm, List.map_cons, q2]

theorem good_lines_nodup {rg : List (List (String × String))}
    (hall : ∀ line ∈ rg, ∃ id s, find_key line "ID" = some id ∧ find_key line "SM" = some s)
    (hnd : (rg.map (fun line => find_key line "ID")).Nodup) :
    ((good_lines rg).map (·.1)).Nodup := by
  rw [← (good_lines_all hall).2] at hnd
  have hm : (good_lines rg).map (fun e => some e.1) = ((good_lines rg).map (·.1)).map some := by
    simp
  rw [hm] at hnd
  exact List.Nodup.of_map _ hnd

theorem added_inv (sm : bam_sample_t) (fn : String) (rg : List (List (String × String)))
    (h : InvSm sm) :
    InvSm (added sm fn rg) ∧ Ext (register_all sm fn (good_lines rg)) (added sm fn rg) := by
  obtain ⟨q1, _, _⟩ := register_all_inv fn (good_lines rg) sm h
  unfold added
  cases hg : good_lines rg with
  | nil =>
    exact ⟨registered_invSm h _ _, registered_ext h _ _⟩
  | cons e1 rest =>
    rw [hg] at q1
    cases rest with
    | nil => exact ⟨registered_invSm q1 _ _, registered_ext q1 _ _⟩
    | cons e2 rest => exact ⟨q1, ext_refl _⟩

theorem added_lookup (sm : bam_sample_t) (fn : String) (rg : List (List (String × String)))
    (h : InvSm sm) (hnd : ((good_lines rg).map (·.1)).Nodup)
    (hnew : ∀ e ∈ good_lines rg, kh_find sm.rg2smid (fn ++ "/" ++ e.1) = none) :
    ∀ e ∈ good_lines rg, ∃ j : Nat,
      bam_smpl_rg2smid (added sm fn rg) fn (some e.1) = (j : Int) ∧
      kh_find (added sm fn rg).sm2id e.2 = some (j : Int) ∧
      (added sm fn rg).smpl[j]? = some (some e.2) := by
  intro e he
  obtain ⟨i, hi, hs⟩ := register_all_spec fn (good_lines rg) sm h hnd hnew e he
  obtain ⟨q1, q2⟩ := added_inv sm fn rg h
  have hi' := q2.1 _ _ hi
  have hs' := q2.2.1 _ _ hs
  obtain ⟨j, hj, _, hg⟩ := q1.2.2.1 _ _ hs'
  subst hj
  exact ⟨j, rg2smid_of_find hi', hs', hg⟩

theorem registered_lookup {sm : bam_sample_t} (h : InvSm sm) {key : String} (val : String)
    (hk : kh_find sm.rg2smid key = none) :
    ∃ j : Nat, kh_find (registered sm key val).rg2smid key = some (j : Int) ∧
      kh_find (registered sm key val).sm2id val = some (j : Int) ∧
      (registered sm key val).smpl[j]? = some (some val) := by
  obtain ⟨i, hi, hs⟩ := registered_new sm val hk
  obtain ⟨j, hj, _, hg⟩ := (registered_invSm h key val).2.2.1 _ _ hs
  subst hj
  exact ⟨j, hi, hs, hg⟩

theorem count_lines_zero {hdr : sam_hdr_t} (h : sam_hdr_count_lines hdr = 0) :
    hdr.parse_ok = true ∧ hdr.rg = [] := by
  unfold sam_hdr_count_lines at h
  split at h
  · rename_i hp
    refine ⟨hp, ?_⟩
    have : hdr.rg.length = 0 := by exact_mod_cast h
    exact List.length_eq_zero.mp this
  · simp at h

theorem added_two_bare (sm : bam_sample_t) (fn : String) (rg : List (List (String × String)))
    {e1 e2 : String × String} {rest : List (String × String)}
    (hg : good_lines rg = e1 :: e2 :: rest) :
    kh_find (added sm fn rg).rg2smid fn = kh_find sm.rg2smid fn := by
  have ha : added sm fn rg = register_all sm fn (good_lines rg) := by
    simp [added, hg]
  rw [ha]
  exact register_all_frame fn _ sm (fun e _ => key_ne_bare fn e.1)

theorem good_lines_append {p1 : List (List (String × String))}
    (hall : ∀ line ∈ p1, ∃ id s, find_key line "ID" = some id ∧ find_key line "SM" = some s)
    (r : List (List (String × String))) :
    good_lines (p1 ++ r) = good_lines p1 ++ good_lines r := by
  induction p1 with
  | nil => simp [good_lines]
  | cons line rest ih =>
    obtain ⟨id, s, hid, hsm⟩ := hall line (List.mem_cons_self _ _)
    rw [List.cons_append]
    simp only [good_lines, hid, hsm, List.cons_append]
    rw [ih (fun l hl => hall l (List.mem_cons_of_mem _ hl))]

theorem good_lines_stop {rest : List (List (String × String))}
    (hrest : ∀ line, rest.head? = some line →
      find_key line "ID" = none ∨ find_key line "SM" = none) : good_lines rest = [] := by
  cases rest with
  | nil => rfl
  | cons line t =>
    rcases hrest line rfl with h | h
    · simp [good_lines, h]
    · cases hid : find_key line "ID" <;> simp [good_lines, h, hid]

theorem register_all_append (fn : String) :
    ∀ (g1 g2 : List (String × String)) (sm : bam_sample_t),
      register_all sm fn (g1 ++ g2) = register_all (register_all sm fn g1) fn g2 := by
  intro g1
  induction g1 with
  | nil => intro g2 sm; rfl
  | cons e rest ih =>
    intro g2 sm
    rw [List.cons_append]
    simp only [register_all]
    exact ih g2 _

theorem added_frame (sm : bam_sample_t) (fn : String) (rg : List (List (String × String)))
    {k : String} (hfn : fn ≠ k) (hne : ∀ e ∈ good_lines rg, fn ++ "/" ++ e.1 ≠ k) :
    kh_find (added sm fn rg).rg2smid k = kh_find sm.rg2smid k := by
  have hf := register_all_frame fn (good_lines rg) sm hne
  unfold added
  cases hg : good_lines rg with
  | nil => exact registered_frame sm fn hfn
  | cons e1 rest =>
    rw [hg] at hf
    cases rest with
    | nil =>
      show kh_find (registered (register_all sm fn [e1]) fn e1.2).rg2smid k = _
      rw [registered_frame _ _ hfn]
      exact hf
    | cons e2 rest => exact hf

theorem added_registered (sm : bam_sample_t) (fn : String) (rg : List (List (String × String)))
    (h : InvSm sm) :
    ∀ e ∈ good_lines rg, kh_find (added sm fn rg).rg2smid (fn ++ "/" ++ e.1) ≠ none := by
  intro e he
  have hr := register_all_registered fn (good_lines rg) sm h e he
  cases hq : kh_find (register_all sm fn (good_lines rg)).rg2smid (fn ++ "/" ++ e.1) with
  | none => exact absurd hq hr
  | some v =>
    rw [(added_inv sm fn rg h).2.1 _ v hq]
    simp

theorem added_lookup_at (sm : bam_sample_t) (fn : String) (rg : List (List (String × String)))
    (h : InvSm sm) {g1 g2 : List (String × String)} {e : String × String}
    (hg : good_lines rg = g1 ++ e :: g2) (hearlier : ∀ e' ∈ g1, e'.1 ≠ e.1)
    (hnew : kh_find sm.rg2smid (fn ++ "/" ++ e.1) = none) :
    ∃ j : Nat, bam_smpl_rg2smid (added sm fn rg) fn (some e.1) = (j : Int) ∧
      kh_find (added sm fn rg).sm2id e.2 = some (j : Int) ∧
      (added sm fn rg).smpl[j]? = some (some e.2) := by
  obtain ⟨q1, q2⟩ := added_inv sm fn rg h
  obtain ⟨a1, _, _⟩ := register_all_inv fn g1 sm h
  have hk1 : kh_find (register_all sm fn g1).rg2smid (fn ++ "/" ++ e.1) = none := by
    rw [register_all_frame fn g1 sm (fun e' he' hk => hearlier e' he' (key_inj hk))]
    exact hnew
  obtain ⟨i, hi, hs⟩ := registered_new (register_all sm fn g1) e.2 hk1
  have a2 := registered_invSm a1 (fn ++ "/" ++ e.1) e.2
  obtain ⟨_, x3, _⟩ := register_all_inv fn g2 _ a2
  have hall : register_all sm fn (good_lines rg) =
      register_all (registered (register_all sm fn g1) (fn ++ "/" ++ e.1) e.2) fn g2 := by
    rw [hg, register_all_append]
    rfl
  rw [hall] at q2
  have hi' := q2.1 _ _ (x3.1 _ _ hi)
  have hs' := q2.2.1 _ _ (x3.2.1 _ _ hs)
  obtain ⟨j, hj, _, hgj⟩ := q1.2.2.1 _ _ hs'
  subst hj
  exact ⟨j, rg2smid_of_find hi', hs', hgj⟩

/-! ## The claims on `sample.c` -/

/-- C1: from a reachable state, for a header whose `@RG` lines all carry ID and
SM with pairwise distinct IDs and whose keys `fn/ID` are not registered yet,
`bam_smpl_add` returns 0 (no library call failing); afterwards the lookup of
every line's `fn`, ID gives an id `i >= 0` with `smpl[i]` the line's SM, and
two lines get the same id exactly when they have the same SM. -/
theorem C1_add_registers_each_line (sm : bam_sample_t) (fn : String) (hdr : sam_hdr_t)
    (junk : Int) (o : List Bool) (hreach : Reachable sm) (hp : hdr.parse_ok = true)
    (ho : NoFail o)
    (hall : ∀ line ∈ hdr.rg, ∃ id s, find_key line "ID" = some id ∧ find_key line "SM" = some s)
    (hnd : (hdr.rg.map (fun line => find_key line "ID")).Nodup)
    (hnew : ∀ line ∈ hdr.rg, ∀ id, find_key line "ID" = some id →
      kh_get sm.rg2smid (compose_key fn (some id)) = none) :
    (bam_smpl_add sm fn (some hdr) junk o).1 = 0 ∧
    (∀ line ∈ hdr.rg, ∀ id s, find_key line "ID" = some id → find_key line "SM" = some s →
      0 ≤ bam_smpl_rg2smid (bam_smpl_add sm fn (some hdr) junk o).2 fn (some id) ∧
      (bam_smpl_add sm fn (some hdr) junk o).2.smpl[
        (bam_smpl_rg2smid (bam_smpl_add sm fn (some hdr) junk o).2 fn (some id)).toNat]? =
          some (some s)) ∧
    (∀ l1 ∈ hdr.rg, ∀ l2 ∈ hdr.rg, ∀ id1 s1 id2 s2,
      find_key l1 "ID" = some id1 → find_key l1 "SM" = some s1 →
      find_key l2 "ID" = some id2 → find_key l2 "SM" = some s2 →
      (bam_smpl_rg2smid (bam_smpl_add sm fn (some hdr) junk o).2 fn (some id1) =
        bam_smpl_rg2smid (bam_smpl_add sm fn (some hdr) junk o).2 fn (some id2) ↔ s1 = s2)) := by
  have h := reachable_invSm hreach
  rw [bam_smpl_add_ok sm fn hdr junk hp ho]
  have hmem := (good_lines_all hall).1
  have hnd' := good_lines_nodup hall hnd
  have hnew' : ∀ e ∈ good_lines hdr.rg, kh_find sm.rg2smid (fn ++ "/" ++ e.1) = none := by
    intro e he
    obtain ⟨line, hl, h1, _⟩ := mem_good_lines he
    exact kh_find_eq_none.mpr (hnew line hl e.1 h1)
  have hlook := added_lookup sm fn hdr.rg h hnd' hnew'
  refine ⟨rfl, ?_, ?_⟩
  · intro line hl id s h1 h2
    obtain ⟨j, hj, _, hg⟩ := hlook (id, s) (hmem line hl id s h1 h2)
    simp only at hj hg ⊢
    rw [hj]
    exact ⟨Int.natCast_nonneg j, by simpa using hg⟩
  · intro l1 hl1 l2 hl2 id1 s1 id2 s2 a1 a2 b1 b2
    obtain ⟨j1, hj1, hq1, hg1⟩ := hlook (id1, s1) (hmem l1 hl1 id1 s1 a1 a2)
    obtain ⟨j2, hj2, hq2, hg2⟩ := hlook (id2, s2) (hmem l2 hl2 id2 s2 b1 b2)
    simp only at hj1 hq1 hg1 hj2 hq2 hg2 ⊢
    rw [hj1, hj2]
    constructor
    · intro he
      have he' : j1 = j2 := by exact_mod_cast he
      subst he'
      rw [hg1] at hg2
      simpa using hg2
    · intro he
      subst he
      rw [hq1] at hq2
      simpa using hq2

/-- Witness of C1: the header with read groups a, b, c over the samples x, y, x,
added to the initial state under the source name f. -/
theorem C1_add_registers_each_line_witness :
    (bam_smpl_add bam_smpl_init "f" (some hdr_three) 7 []).1 = 0 ∧
    (∀ line ∈ hdr_three.rg, ∀ id s, find_key line "ID" = some id → find_key line "SM" = some s →
      0 ≤ bam_smpl_rg2smid (bam_smpl_add bam_smpl_init "f" (some hdr_three) 7 []).2 "f" (some id) ∧
      (bam_smpl_add bam_smpl_init "f" (some hdr_three) 7 []).2.smpl[
        (bam_smpl_rg2smid (bam_smpl_add bam_smpl_init "f" (some hdr_three) 7 []).2 "f"
          (some id)).toNat]? = some (some s)) ∧
    (∀ l1 ∈ hdr_three.rg, ∀ l2 ∈ hdr_three.rg, ∀ id1 s1 id2 s2,
      find_key l1 "ID" = some id1 → find_key l1 "SM" = some s1 →
      find_key l2 "ID" = some id2 → find_key l2 "SM" = some s2 →
      (bam_smpl_rg2smid (bam_smpl_add bam_smpl_init "f" (some hdr_three) 7 []).2 "f" (some id1) =
        bam_smpl_rg2smid (bam_smpl_add bam_smpl_init "f" (some hdr_three) 7 []).2 "f" (some id2)
          ↔ s1 = s2)) :=
  C1_add_registers_each_line bam_smpl_init "f" hdr_three 7 [] Reachable.init rfl noFail_nil
    (by simp [hdr_three, rg_line, find_key]) (by decide)
    (by simp [hdr_three, rg_line, find_key, bam_smpl_init, kh_init, kh_get])

/-- C2: from a reachable state, for a source name `fn` that is not a registered
key, when the header is NULL or has no `@RG` line, `bam_smpl_add` returns 0
(no library call failing) and afterwards the lookup of `fn` with a NULL read
group gives an id `i >= 0` with `smpl[i] = fn`. -/
theorem C2_defaults_to_source_name (sm : bam_sample_t) (fn : String) (hdr : Option sam_hdr_t)
    (junk : Int) (o : List Bool) (hreach : Reachable sm) (ho : NoFail o)
    (hnew : kh_get sm.rg2smid fn = none)
    (hhdr : hdr = none ∨ ∃ h, hdr = some h ∧ sam_hdr_count_lines h = 0) :
    (bam_smpl_add sm fn hdr junk o).1 = 0 ∧
    0 ≤ bam_smpl_rg2smid (bam_smpl_add sm fn hdr junk o).2 fn none ∧
    (bam_smpl_add sm fn hdr junk o).2.smpl[
      (bam_smpl_rg2smid (bam_smpl_add sm fn hdr junk o).2 fn none).toNat]? = some (some fn) := by
  have h := reachable_invSm hreach
  obtain ⟨j, hj, _, hg⟩ := registered_lookup h fn (kh_find_eq_none.mpr hnew)
  have hres : bam_smpl_add sm fn hdr junk o = (0, registered sm fn fn) := by
    rcases hhdr with hn | ⟨hd, hs, hc⟩
    · rw [hn]; exact bam_smpl_add_null sm fn junk ho
    · obtain ⟨hp, hrg⟩ := count_lines_zero hc
      rw [hs, bam_smpl_add_ok sm fn hd junk hp ho, hrg]
      rfl
  rw [hres]
  have hl : bam_smpl_rg2smid (registered sm fn fn) fn none = (j : Int) := rg2smid_of_find hj
  refine ⟨rfl, ?_⟩
  simp only [hl]
  exact ⟨Int.natCast_nonneg j, by simpa using hg⟩

/-- Witness of C2: a header without read groups, added to the initial state. -/
theorem C2_defaults_to_source_name_witness :
    (bam_smpl_add bam_smpl_init "f" (some hdr_none) 7 []).1 = 0 ∧
    0 ≤ bam_smpl_rg2smid (bam_smpl_add bam_smpl_init "f" (some hdr_none) 7 []).2 "f" none ∧
    (bam_smpl_add bam_smpl_init "f" (some hdr_none) 7 []).2.smpl[
      (bam_smpl_rg2smid (bam_smpl_add bam_smpl_init "f" (some hdr_none) 7 []).2 "f" none).toNat]? =
        some (some "f") :=
  C2_defaults_to_source_name bam_smpl_init "f" (some hdr_none) 7 [] Reachable.init noFail_nil
    (by decide) (Or.inr ⟨hdr_none, rfl, by decide⟩)

/-- C3: from a reachable state, for a header with exactly one `@RG` line, with
ID `r` and SM `s`, when neither `fn` nor `fn/r` is a registered key,
`bam_smpl_add` returns 0 (no library call failing) and afterwards the lookups
of `fn` with a NULL read group and with `r` give the same id `i`, with
`smpl[i] = s`. -/
theorem C3_single_read_group_fallback (sm : bam_sample_t) (fn : String) (hdr : sam_hdr_t)
    (junk : Int) (o : List Bool) (line : List (String × String)) (r s : String)
    (hreach : Reachable sm) (hp : hdr.parse_ok = true) (ho : NoFail o)
    (hone : hdr.rg = [line]) (hid : find_key line "ID" = some r)
    (hsm : find_key line "SM" = some s)
    (hfn : kh_get sm.rg2smid fn = none)
    (hkey : kh_get sm.rg2smid (compose_key fn (some r)) = none) :
    (bam_smpl_add sm fn (some hdr) junk o).1 = 0 ∧
    bam_smpl_rg2smid (bam_smpl_add sm fn (some hdr) junk o).2 fn none =
      bam_smpl_rg2smid (bam_smpl_add sm fn (some hdr) junk o).2 fn (some r) ∧
    0 ≤ bam_smpl_rg2smid (bam_smpl_add sm fn (some hdr) junk o).2 fn (some r) ∧
    (bam_smpl_add sm fn (some hdr) junk o).2.smpl[
      (bam_smpl_rg2smid (bam_smpl_add sm fn (some hdr) junk o).2 fn (some r)).toNat]? =
        some (some s) := by
  have h := reachable_invSm hreach
  have hgood : good_lines hdr.rg = [(r, s)] := by simp [hone, good_lines, hid, hsm]
  have hres : bam_smpl_add sm fn (some hdr) junk o =
      (0, registered (registered sm (fn ++ "/" ++ r) s) fn s) := by
    rw [bam_smpl_add_ok sm fn hdr junk hp ho]
    simp [added, hgood, register_all]
  rw [hres]
  have h1 := registered_invSm h (fn ++ "/" ++ r) s
  obtain ⟨i, hi, hs⟩ := registered_new sm s (kh_find_eq_none.mpr hkey)
  have hfn1 : kh_find (registered sm (fn ++ "/" ++ r) s).rg2smid fn = none := by
    rw [registered_frame sm s (key_ne_bare fn r)]
    exact kh_find_eq_none.mpr hfn
  obtain ⟨j, hj, hjs, hg⟩ := registered_lookup h1 s hfn1
  have hx := registered_ext h1 fn s
  have hi' := hx.1 _ _ hi
  have hs' := hx.2.1 _ _ hs
  rw [hjs] at hs'
  simp only [Option.some.injEq] at hs'
  subst hs'
  have l1 : bam_smpl_rg2smid (registered (registered sm (fn ++ "/" ++ r) s) fn s) fn none =
      (j : Int) := rg2smid_of_find hj
  have l2 : bam_smpl_rg2smid (registered (registered sm (fn ++ "/" ++ r) s) fn s) fn (some r) =
      (j : Int) := rg2smid_of_find hi'
  refine ⟨rfl, ?_⟩
  simp only [l1, l2]
  exact ⟨trivial, Int.natCast_nonneg j, by simpa using hg⟩

/-- Witness of C3: a header with the one read group a of sample x, added to the
initial state. -/
theorem C3_single_read_group_fallback_witness :
    (bam_smpl_add bam_smpl_init "f" (some hdr_one) 7 []).1 = 0 ∧
    bam_smpl_rg2smid (bam_smpl_add bam_smpl_init "f" (some hdr_one) 7 []).2 "f" none =
      bam_smpl_rg2smid (bam_smpl_add bam_smpl_init "f" (some hdr_one) 7 []).2 "f" (some "a") ∧
    0 ≤ bam_smpl_rg2smid (bam_smpl_add bam_smpl_init "f" (some hdr_one) 7 []).2 "f" (some "a") ∧
    (bam_smpl_add bam_smpl_init "f" (some hdr_one) 7 []).2.smpl[
      (bam_smpl_rg2smid (bam_smpl_add bam_smpl_init "f" (some hdr_one) 7 []).2 "f"
        (some "a")).toNat]? = some (some "x") :=
  C3_single_read_group_fallback bam_smpl_init "f" hdr_one 7 [] (rg_line "a" "x") "a" "x"
    Reachable.init rfl noFail_nil rfl (by decide) (by decide) (by decide) (by decide)

/-- C4: in a state reached from `bam_smpl_init` by calls of `bam_smpl_add` that
returned 0, for every `fn` and `rg`, `bam_smpl_rg2smid` returns -1 exactly when
the composed key is not registered in `rg2smid`; otherwise it returns the id
stored for the key, and that id is at least 0 and below `n`. -/
theorem C4_lookup_found_or_minus_one (sm : bam_sample_t) (fn : String) (rg : Option String)
    (hreach : Reachable0 sm) :
    (bam_smpl_rg2smid sm fn rg = -1 ↔ kh_get sm.rg2smid (compose_key fn rg) = none) ∧
    (∀ k, kh_get sm.rg2smid (compose_key fn rg) = some k →
      bam_smpl_rg2smid sm fn rg = kh_val sm.rg2smid k ∧
      0 ≤ bam_smpl_rg2smid sm fn rg ∧ bam_smpl_rg2smid sm fn rg < (sm.n : Int)) := by
  have hinv := (reachable0_inv hreach).2
  have hfound : ∀ k, kh_get sm.rg2smid (compose_key fn rg) = some k →
      bam_smpl_rg2smid sm fn rg = kh_val sm.rg2smid k ∧
      0 ≤ bam_smpl_rg2smid sm fn rg ∧ bam_smpl_rg2smid sm fn rg < (sm.n : Int) := by
    intro k hk
    have hf := kh_find_of_get hk
    rw [rg2smid_of_find hf]
    exact ⟨rfl, hinv _ _ hf⟩
  refine ⟨⟨?_, ?_⟩, hfound⟩
  · intro hm
    cases hk : kh_get sm.rg2smid (compose_key fn rg) with
    | none => rfl
    | some k =>
      have := (hfound k hk).2.1
      omega
  · intro hk
    exact rg2smid_of_none (kh_find_eq_none.mpr hk)

/-- Witness of C4: the state after the three read groups a, b, c were added
under the source name f, looked up for f and b. -/
theorem C4_lookup_found_or_minus_one_witness :
    (bam_smpl_rg2smid (bam_smpl_add bam_smpl_init "f" (some hdr_three) 7 []).2 "f" (some "b") = -1 ↔
      kh_get (bam_smpl_add bam_smpl_init "f" (some hdr_three) 7 []).2.rg2smid
        (compose_key "f" (some "b")) = none) ∧
    (∀ k, kh_get (bam_smpl_add bam_smpl_init "f" (some hdr_three) 7 []).2.rg2smid
        (compose_key "f" (some "b")) = some k →
      bam_smpl_rg2smid (bam_smpl_add bam_smpl_init "f" (some hdr_three) 7 []).2 "f" (some "b") =
        kh_val (bam_smpl_add bam_smpl_init "f" (some hdr_three) 7 []).2.rg2smid k ∧
      0 ≤ bam_smpl_rg2smid (bam_smpl_add bam_smpl_init "f" (some hdr_three) 7 []).2 "f" (some "b") ∧
      bam_smpl_rg2smid (bam_smpl_add bam_smpl_init "f" (some hdr_three) 7 []).2 "f" (some "b") <
        ((bam_smpl_add bam_smpl_init "f" (some hdr_three) 7 []).2.n : Int)) :=
  C4_lookup_found_or_minus_one (bam_smpl_add bam_smpl_init "f" (some hdr_three) 7 []).2 "f"
    (some "b") (Reachable0.add bam_smpl_init "f" (some hdr_three) 7 [] Reachable0.init (by decide))

/-- C5: for every state and every key that is registered in `rg2smid`,
`add_pair` changes nothing, whatever `val` is: the record (`rg2smid`, `sm2id`,
`smpl`, `n`, `m`) is the one before the call, and no library call is made. -/
theorem C5_add_pair_registered_key_noop (sm : bam_sample_t) (key val : String) (junk : Int)
    (o : List Bool) (hk : kh_get sm.rg2smid key ≠ none) :
    (add_pair sm key val junk o).2.1 = sm ∧ (add_pair sm key val junk o).2.2 = o := by
  rw [add_pair_dup val junk o hk]
  exact ⟨rfl, rfl⟩

/-- Witness of C5: after f/a was registered for the sample x, registering f/a
for the sample z. -/
theorem C5_add_pair_registered_key_noop_witness :
    kh_get (bam_smpl_add bam_smpl_init "f" (some hdr_one) 7 []).2.rg2smid "f/a" ≠ none ∧
    (add_pair (bam_smpl_add bam_smpl_init "f" (some hdr_one) 7 []).2 "f/a" "z" 7 [false]).2.1 =
      (bam_smpl_add bam_smpl_init "f" (some hdr_one) 7 []).2 ∧
    (add_pair (bam_smpl_add bam_smpl_init "f" (some hdr_one) 7 []).2 "f/a" "z" 7 [false]).2.2 =
      [false] :=
  ⟨by decide, C5_add_pair_registered_key_noop
    (bam_smpl_add bam_smpl_init "f" (some hdr_one) 7 []).2 "f/a" "z" 7 [false] (by decide)⟩

/-- C6, the claim as stated fails: the key f is registered by a first call, and
`add_pair` for the key f and another sample g returns 0, which is not a
negative status. -/
theorem C6_counterexample :
    kh_get (bam_smpl_add bam_smpl_init "f" none 7 []).2.rg2smid "f" = some 0 ∧
    (add_pair (bam_smpl_add bam_smpl_init "f" none 7 []).2 "f" "g" 7 []).1 = 0 ∧
    ¬ (add_pair (bam_smpl_add bam_smpl_init "f" none 7 []).2 "f" "g" 7 []).1 < 0 := by
  decide

/-- C6 as amended: for every state and every key that is registered in
`rg2smid`, `add_pair` returns 0, the success status. -/
theorem C6_add_pair_registered_key_returns_zero (sm : bam_sample_t) (key val : String)
    (junk : Int) (o : List Bool) (hk : kh_get sm.rg2smid key ≠ none) :
    (add_pair sm key val junk o).1 = 0 := by
  rw [add_pair_dup val junk o hk]

/-- Witness of C6 as amended: the key f registered twice, the second time while
every library call would fail. -/
theorem C6_add_pair_registered_key_returns_zero_witness :
    kh_get (bam_smpl_add bam_smpl_init "f" none 7 []).2.rg2smid "f" ≠ none ∧
    (add_pair (bam_smpl_add bam_smpl_init "f" none 7 []).2 "f" "g" 7 [false, false]).1 = 0 :=
  ⟨by decide, C6_add_pair_registered_key_returns_zero
    (bam_smpl_add bam_smpl_init "f" none 7 []).2 "f" "g" 7 [false, false] (by decide)⟩

/-- C9, where the code departs from the claim and from its own comment at
sample.c:128-129 ("only one RG tag present in the header"): the header has two
`@RG` lines, the second without an SM tag; the loop registers the first line
and breaks at the second, so `n == 1` although `nrg == 2`, and the bare source
name f is registered for the sample s of the first line: the call returns 0
and the lookup of f with a NULL read group gives 0, the id of s. -/
theorem C9_fallback_taken_with_two_lines :
    2 ≤ hdr_second_bare.rg.length ∧
    kh_get bam_smpl_init.rg2smid "f" = none ∧
    hdr_second_bare.rg.head?.bind (fun line => find_key line "SM") = some "s" ∧
    "s" ≠ "f" ∧
    (bam_smpl_add bam_smpl_init "f" (some hdr_second_bare) 7 []).1 = 0 ∧
    bam_smpl_rg2smid (bam_smpl_add bam_smpl_init "f" (some hdr_second_bare) 7 []).2 "f" none = 0 ∧
    kh_find (bam_smpl_add bam_smpl_init "f" (some hdr_second_bare) 7 []).2.sm2id "s" = some 0 ∧
    (bam_smpl_add bam_smpl_init "f" (some hdr_second_bare) 7 []).2.smpl[0]? = some (some "s") := by
  decide

/-- The headers with two or more `@RG` lines on which the guard `n == 1` keeps
the fallback out.  From a reachable state, for a header whose first line lacks
an ID or an SM tag or whose first two lines both carry ID and SM, and a source
name `fn` that is not a registered key, after `bam_smpl_add` (no library call
failing) the lookup of `fn` with a NULL read group is not the id of the first
line's SM, when that SM differs from `fn`, and it is not an id `i >= 0` with
`smpl[i]` the first line's SM. -/
theorem no_fallback_unless_one_line (sm : bam_sample_t) (fn : String) (hdr : sam_hdr_t)
    (junk : Int) (o : List Bool) (l1 l2 : List (String × String))
    (rest : List (List (String × String))) (s1 : String)
    (hreach : Reachable sm) (hp : hdr.parse_ok = true) (ho : NoFail o)
    (hrg : hdr.rg = l1 :: l2 :: rest)
    (hcase : (find_key l1 "ID" = none ∨ find_key l1 "SM" = none) ∨
      ((find_key l1 "ID" ≠ none ∧ find_key l1 "SM" ≠ none) ∧
        (find_key l2 "ID" ≠ none ∧ find_key l2 "SM" ≠ none)))
    (_hs1 : find_key l1 "SM" = some s1) (hne : s1 ≠ fn)
    (hfn : kh_get sm.rg2smid fn = none) :
    (∀ i, kh_find (bam_smpl_add sm fn (some hdr) junk o).2.sm2id s1 = some i →
      bam_smpl_rg2smid (bam_smpl_add sm fn (some hdr) junk o).2 fn none ≠ i) ∧
    ¬ (0 ≤ bam_smpl_rg2smid (bam_smpl_add sm fn (some hdr) junk o).2 fn none ∧
      (bam_smpl_add sm fn (some hdr) junk o).2.smpl[
        (bam_smpl_rg2smid (bam_smpl_add sm fn (some hdr) junk o).2 fn none).toNat]? =
          some (some s1)) := by
  have h := reachable_invSm hreach
  rw [bam_smpl_add_ok sm fn hdr junk hp ho]
  rcases hcase with hbad | ⟨⟨h1i, h1s⟩, h2i, h2s⟩
  · have hg : good_lines hdr.rg = [] := by
      rw [hrg]
      exact good_lines_stop (fun line hl => by
        simp only [List.head?_cons, Option.some.injEq] at hl
        subst hl
        exact hbad)
    have ha : added sm fn hdr.rg = registered sm fn fn := by simp [added, hg]
    rw [ha]
    obtain ⟨j, hj, _, hgj⟩ := registered_lookup h fn (kh_find_eq_none.mpr hfn)
    have hl : bam_smpl_rg2smid (registered sm fn fn) fn none = (j : Int) := rg2smid_of_find hj
    simp only [hl]
    constructor
    · intro i hi hji
      obtain ⟨j', hj', _, hgj'⟩ := (registered_invSm h fn fn).2.2.1 _ _ hi
      have hjj : j = j' := by omega
      subst hjj
      rw [hgj] at hgj'
      simp only [Option.some.injEq] at hgj'
      exact hne hgj'.symm
    · intro hc
      have h2 := hc.2
      simp only [Int.toNat_ofNat] at h2
      rw [hgj] at h2
      simp only [Option.some.injEq] at h2
      exact hne h2.symm
  · obtain ⟨id1, h1i⟩ := Option.ne_none_iff_exists'.mp h1i
    obtain ⟨s1', h1s⟩ := Option.ne_none_iff_exists'.mp h1s
    obtain ⟨id2, h2i⟩ := Option.ne_none_iff_exists'.mp h2i
    obtain ⟨s2, h2s⟩ := Option.ne_none_iff_exists'.mp h2s
    have hg : good_lines hdr.rg = (id1, s1') :: (id2, s2) :: good_lines rest := by
      simp [hrg, good_lines, h1i, h1s, h2i, h2s]
    have hnone : kh_find (added sm fn hdr.rg).rg2smid (compose_key fn none) = none := by
      show kh_find (added sm fn hdr.rg).rg2smid fn = none
      rw [added_two_bare sm fn hdr.rg hg]
      exact kh_find_eq_none.mpr hfn
    have hl := rg2smid_of_none hnone
    simp only [hl]
    constructor
    · intro i hi
      obtain ⟨j, hj, _, _⟩ := (added_inv sm fn hdr.rg h).1.2.2.1 _ _ hi
      omega
    · intro hc
      exact absurd hc.1 (by decide)

/-- The header with the read groups a, b, c, added to the initial state, keeps
the fallback out. -/
theorem no_fallback_unless_one_line_example :
    (∀ i, kh_find (bam_smpl_add bam_smpl_init "f" (some hdr_three) 7 []).2.sm2id "x" = some i →
      bam_smpl_rg2smid (bam_smpl_add bam_smpl_init "f" (some hdr_three) 7 []).2 "f" none ≠ i) ∧
    ¬ (0 ≤ bam_smpl_rg2smid (bam_smpl_add bam_smpl_init "f" (some hdr_three) 7 []).2 "f" none ∧
      (bam_smpl_add bam_smpl_init "f" (some hdr_three) 7 []).2.smpl[
        (bam_smpl_rg2smid (bam_smpl_add bam_smpl_init "f" (some hdr_three) 7 []).2 "f" none).toNat]? =
          some (some "x")) :=
  no_fallback_unless_one_line bam_smpl_init "f" hdr_three 7 [] (rg_line "a" "x")
    (rg_line "b" "y") [rg_line "c" "x"] "x" Reachable.init rfl noFail_nil rfl
    (Or.inr (by decide)) (by decide) (by decide) (by decide)

/-- C10, the claim as stated fails.  First input: a header with two complete
`@RG` lines of the same ID a, with samples x and y, added to the initial state;
the key f/a of the second line is mapped to the id of x, and y gets no id.
Second input: the read group a added under the name f with sample x, then
again with sample y; the key f/a stays with the id of x. -/
theorem C10_counterexample :
    ((bam_smpl_add bam_smpl_init "f" (some hdr_same_id) 7 []).1 = 0 ∧
      hdr_same_id.rg[1]? = some (rg_line "a" "y") ∧
      bam_smpl_rg2smid (bam_smpl_add bam_smpl_init "f" (some hdr_same_id) 7 []).2 "f" (some "a") = 0 ∧
      (bam_smpl_add bam_smpl_init "f" (some hdr_same_id) 7 []).2.smpl[0]? = some (some "x") ∧
      kh_find (bam_smpl_add bam_smpl_init "f" (some hdr_same_id) 7 []).2.sm2id "y" = none) ∧
    ((bam_smpl_add (bam_smpl_add bam_smpl_init "f" (some hdr_one) 7 []).2 "f"
        (some hdr_one_y) 7 []).1 = 0 ∧
      bam_smpl_rg2smid (bam_smpl_add (bam_smpl_add bam_smpl_init "f" (some hdr_one) 7 []).2 "f"
        (some hdr_one_y) 7 []).2 "f" (some "a") = 0 ∧
      (bam_smpl_add (bam_smpl_add bam_smpl_init "f" (some hdr_one) 7 []).2 "f"
        (some hdr_one_y) 7 []).2.smpl[0]? = some (some "x") ∧
      kh_find (bam_smpl_add (bam_smpl_add bam_smpl_init "f" (some hdr_one) 7 []).2 "f"
        (some hdr_one_y) 7 []).2.sm2id "y" = none) := by
  decide

/-- C10 as amended: `bam_smpl_add` stops at the first `@RG` line that lacks an
ID or an SM tag.  From a reachable state, with the `@RG` lines split into the
lines `pre` before the first such line and the lines `rest` from it on, the
call returns 0 (no library call failing); the key `fn/ID` of every line of
`pre` is registered afterwards; such a key is mapped to the id of the line's
SM when it was not registered before the call and no earlier line has the
same ID; and every key other than `fn` and the keys `fn/ID` of `pre` is left
as it was, so the lines of `rest` add no key. -/
theorem C10_stops_at_first_incomplete_line (sm : bam_sample_t) (fn : String) (hdr : sam_hdr_t)
    (junk : Int) (o : List Bool) (pre rest : List (List (String × String)))
    (hreach : Reachable sm) (hp : hdr.parse_ok = true) (ho : NoFail o)
    (hsplit : hdr.rg = pre ++ rest)
    (hpre : ∀ line ∈ pre, ∃ id s, find_key line "ID" = some id ∧ find_key line "SM" = some s)
    (hrest : ∀ line, rest.head? = some line →
      find_key line "ID" = none ∨ find_key line "SM" = none) :
    (bam_smpl_add sm fn (some hdr) junk o).1 = 0 ∧
    (∀ line ∈ pre, ∀ id, find_key line "ID" = some id →
      kh_get (bam_smpl_add sm fn (some hdr) junk o).2.rg2smid (compose_key fn (some id)) ≠ none) ∧
    (∀ p1 line p2 id s, pre = p1 ++ line :: p2 →
      find_key line "ID" = some id → find_key line "SM" = some s →
      (∀ l ∈ p1, find_key l "ID" ≠ some id) →
      kh_get sm.rg2smid (compose_key fn (some id)) = none →
      0 ≤ bam_smpl_rg2smid (bam_smpl_add sm fn (some hdr) junk o).2 fn (some id) ∧
      kh_find (bam_smpl_add sm fn (some hdr) junk o).2.sm2id s =
        some (bam_smpl_rg2smid (bam_smpl_add sm fn (some hdr) junk o).2 fn (some id)) ∧
      (bam_smpl_add sm fn (some hdr) junk o).2.smpl[
        (bam_smpl_rg2smid (bam_smpl_add sm fn (some hdr) junk o).2 fn (some id)).toNat]? =
          some (some s)) ∧
    (∀ k, k ≠ fn →
      (∀ line ∈ pre, ∀ id, find_key line "ID" = some id → k ≠ compose_key fn (some id)) →
      kh_find (bam_smpl_add sm fn (some hdr) junk o).2.rg2smid k = kh_find sm.rg2smid k) := by
  have h := reachable_invSm hreach
  rw [bam_smpl_add_ok sm fn hdr junk hp ho]
  have hgood : good_lines hdr.rg = good_lines pre := by
    rw [hsplit, good_lines_append hpre, good_lines_stop hrest, List.append_nil]
  have hmem := (good_lines_all hpre).1
  refine ⟨rfl, ?_, ?_, ?_⟩
  · intro line hl id hid
    obtain ⟨id', s, h1, h2⟩ := hpre line hl
    rw [hid] at h1
    simp only [Option.some.injEq] at h1
    subst h1
    have hin : (id, s) ∈ good_lines hdr.rg := by
      rw [hgood]; exact hmem line hl id s hid h2
    have := added_registered sm fn hdr.rg h (id, s) hin
    exact fun hc => this (kh_find_eq_none.mpr hc)
  · intro p1 line p2 id s hq hid hsm hearlier hnew
    have hp1 : ∀ l ∈ p1, ∃ id s, find_key l "ID" = some id ∧ find_key l "SM" = some s := by
      intro l hl
      exact hpre l (by rw [hq]; exact List.mem_append_left _ hl)
    have hg : good_lines hdr.rg = good_lines p1 ++ (id, s) :: good_lines p2 := by
      rw [hgood, hq, good_lines_append hp1]
      simp [good_lines, hid, hsm]
    have he : ∀ e' ∈ good_lines p1, e'.1 ≠ (id, s).1 := by
      intro e' he' hc
      obtain ⟨l, hl, h1, _⟩ := mem_good_lines he'
      exact hearlier l hl (by rw [h1, hc])
    obtain ⟨j, hj, hs, hgj⟩ := added_lookup_at sm fn hdr.rg h hg he (kh_find_eq_none.mpr hnew)
    simp only at hj hs hgj ⊢
    rw [hj]
    exact ⟨Int.natCast_nonneg j, hs, by simpa using hgj⟩
  · intro k hk hne
    refine added_frame sm fn hdr.rg (fun hc => hk hc.symm) ?_
    intro e he hc
    rw [hgood] at he
    obtain ⟨l, hl, h1, _⟩ := mem_good_lines he
    exact hne l hl e.1 h1 hc.symm

/-- Witness of C10 as amended: the header whose second line has no SM tag and
whose third line is complete, added to the initial state. -/
theorem C10_stops_at_first_incomplete_line_witness :
    (bam_smpl_add bam_smpl_init "f" (some hdr_gap) 7 []).1 = 0 ∧
    (∀ line ∈ [rg_line "a" "x"], ∀ id, find_key line "ID" = some id →
      kh_get (bam_smpl_add bam_smpl_init "f" (some hdr_gap) 7 []).2.rg2smid
        (compose_key "f" (some id)) ≠ none) ∧
    (∀ p1 line p2 id s, [rg_line "a" "x"] = p1 ++ line :: p2 →
      find_key line "ID" = some id → find_key line "SM" = some s →
      (∀ l ∈ p1, find_key l "ID" ≠ some id) →
      kh_get bam_smpl_init.rg2smid (compose_key "f" (some id)) = none →
      0 ≤ bam_smpl_rg2smid (bam_smpl_add bam_smpl_init "f" (some hdr_gap) 7 []).2 "f" (some id) ∧
      kh_find (bam_smpl_add bam_smpl_init "f" (some hdr_gap) 7 []).2.sm2id s =
        some (bam_smpl_rg2smid (bam_smpl_add bam_smpl_init "f" (some hdr_gap) 7 []).2 "f" (some id)) ∧
      (bam_smpl_add bam_smpl_init "f" (some hdr_gap) 7 []).2.smpl[
        (bam_smpl_rg2smid (bam_smpl_add bam_smpl_init "f" (some hdr_gap) 7 []).2 "f"
          (some id)).toNat]? = some (some s)) ∧
    (∀ k, k ≠ "f" →
      (∀ line ∈ [rg_line "a" "x"], ∀ id, find_key line "ID" = some id →
        k ≠ compose_key "f" (some id)) →
      kh_find (bam_smpl_add bam_smpl_init "f" (some hdr_gap) 7 []).2.rg2smid k =
        kh_find bam_smpl_init.rg2smid k) :=
  C10_stops_at_first_incomplete_line bam_smpl_init "f" hdr_gap 7 [] [rg_line "a" "x"]
    [[("ID", "b")], rg_line "c" "z"] Reachable.init rfl noFail_nil rfl
    (by simp [rg_line, find_key]) (by simp [find_key])

/-! ## The spill file: write, close, reopen, read -/

theorem payload_append (codec : codec_t) (p q : List (List Nat)) :
    payload codec (p ++ q) = payload codec p ++ payload codec q := by
  induction p with
  | nil => rfl
  | cons r rs ih =>
    rw [List.cons_append]
    simp only [payload, ih, List.append_assoc]

theorem payload_ne_nil {codec : codec_t} (hc : codec_frames codec) {p : List (List Nat)}
    (hp : p ≠ []) : payload codec p ≠ [] := by
  cases p with
  | nil => exact absurd rfl hp
  | cons r rs =>
    intro h
    have hl := congrArg List.length h
    have := (hc r []).1
    simp only [payload, List.length_append, List.length_nil] at hl
    omega

theorem records_of_append (gs hs : List (List (List Nat))) :
    records_of (gs ++ hs) = records_of gs ++ records_of hs := by
  induction gs with
  | nil => rfl
  | cons g gs ih =>
    rw [List.cons_append]
    simp only [records_of, ih, List.append_assoc]

theorem frames_of_snoc (lz : lz4_t) (codec : codec_t) (cap : Nat) (g : List (List Nat)) :
    ∀ (gs : List (List (List Nat))) (d : List Nat),
      frames_of lz codec cap d (gs ++ [g]) =
        frames_of lz codec cap d gs ++ [lz.compress (dict_after codec cap d gs) (payload codec g)] := by
  intro gs
  induction gs with
  | nil => intro d; rfl
  | cons h hs ih =>
    intro d
    rw [List.cons_append]
    simp only [frames_of, dict_after, ih, List.cons_append]

theorem dict_after_snoc (codec : codec_t) (cap : Nat) (g : List (List Nat)) :
    ∀ (gs : List (List (List Nat))) (d : List Nat),
      dict_after codec cap d (gs ++ [g]) =
        window_extend cap (dict_after codec cap d gs) (payload codec g) := by
  intro gs
  induction gs with
  | nil => intro d; rfl
  | cons h hs ih =>
    intro d
    rw [List.cons_append]
    simp only [dict_after, ih]

theorem flush_group_spec {lz : lz4_t} {codec : codec_t} (hl : lz4_lossless lz)
    (hc : codec_frames codec) {t : tmp_file_t} {gs : List (List (List Nat))}
    {p : List (List Nat)} (hw : Writing lz codec t gs p) (hp : p ≠ []) :
    (flush_group lz t).1 = TMP_SAM_OK ∧ Writing lz codec (flush_group lz t).2 (gs ++ [p]) [] ∧
      (flush_group lz t).2.ring_buffer_size = t.ring_buffer_size ∧
      (flush_group lz t).2.group_size = t.group_size := by
  obtain ⟨hm, hf, hr, hd, he, hg⟩ := hw
  have hne : lz.compress t.ring_buffer t.staging ≠ [] := by
    rw [hd]; exact (hl _ _ (payload_ne_nil hc hp)).1
  have e : flush_group lz t = (TMP_SAM_OK,
      { t with
        fp := t.fp ++ [lz.compress t.ring_buffer t.staging]
        ring_buffer := window_extend t.ring_buffer_size t.ring_buffer t.staging
        staging := []
        entry_number := 0
        groups_written := t.groups_written + 1 }) := by
    simp only [flush_group, hne, if_false]
  rw [e]
  refine ⟨rfl, ⟨hm, ?_, ?_, rfl, rfl, ?_⟩, rfl, rfl⟩
  · show t.fp ++ [lz.compress t.ring_buffer t.staging] = _
    rw [frames_of_snoc, hf, hr, hd]
  · show window_extend t.ring_buffer_size t.ring_buffer t.staging = _
    rw [dict_after_snoc, hr, hd]
  · intro g hgm
    rcases List.mem_append.mp hgm with h1 | h1
    · exact hg g h1
    · rw [List.mem_singleton.mp h1]; exact hp

theorem tmp_file_write_spec {lz : lz4_t} {codec : codec_t} (hl : lz4_lossless lz)
    (hc : codec_frames codec) (full : tmp_file_t → Bool) {t : tmp_file_t}
    {gs : List (List (List Nat))} {p : List (List Nat)} (hw : Writing lz codec t gs p)
    (r : List Nat) :
    ∃ gs' p', (tmp_file_write lz codec full t r).1 = TMP_SAM_OK ∧
      Writing lz codec (tmp_file_write lz codec full t r).2 gs' p' ∧
      records_of gs' ++ p' = records_of gs ++ p ++ [r] ∧
      (tmp_file_write lz codec full t r).2.ring_buffer_size = t.ring_buffer_size ∧
      (tmp_file_write lz codec full t r).2.group_size = t.group_size := by
  have hw1 : Writing lz codec
      { t with staging := t.staging ++ codec.serialize r, entry_number := t.entry_number + 1 }
      gs (p ++ [r]) := by
    obtain ⟨hm, hf, hr, hd, he, hg⟩ := hw
    refine ⟨hm, hf, hr, ?_, ?_, hg⟩
    · show t.staging ++ codec.serialize r = _
      rw [payload_append, hd]
      simp [payload]
    · show t.entry_number + 1 = _
      rw [he]; simp
  have hm : ¬ t.mode ≠ tmp_mode.WriteOpen := by simp [hw.1]
  by_cases hfull : t.group_size ≤ t.entry_number + 1 ∨
      full { t with staging := t.staging ++ codec.serialize r,
                    entry_number := t.entry_number + 1 } = true
  · have e : tmp_file_write lz codec full t r = flush_group lz
        { t with staging := t.staging ++ codec.serialize r,
                 entry_number := t.entry_number + 1 } := by
      simp only [tmp_file_write, hm, if_false, hfull, if_true]
    rw [e]
    obtain ⟨f1, f2, f3, f4⟩ := flush_group_spec hl hc hw1 (by simp)
    refine ⟨gs ++ [p ++ [r]], [], f1, f2, ?_, f3, f4⟩
    rw [records_of_append]
    simp [records_of]
  · have e : tmp_file_write lz codec full t r = (TMP_SAM_OK,
        { t with staging := t.staging ++ codec.serialize r,
                 entry_number := t.entry_number + 1 }) := by
      simp only [tmp_file_write, hm, if_false, hfull]
    rw [e]
    exact ⟨gs, p ++ [r], rfl, hw1, by simp, rfl, rfl⟩

theorem write_all_spec {lz : lz4_t} {codec : codec_t} (hl : lz4_lossless lz)
    (hc : codec_frames codec) (full : tmp_file_t → Bool) (recs : List (List Nat)) :
    ∀ (t : tmp_file_t) (gs : List (List (List Nat))) (p : List (List Nat)),
      Writing lz codec t gs p →
      ∃ gs' p', (write_all lz codec full t recs).1 = List.replicate recs.length TMP_SAM_OK ∧
        Writing lz codec (write_all lz codec full t recs).2 gs' p' ∧
        records_of gs' ++ p' = records_of gs ++ p ++ recs ∧
        (write_all lz codec full t recs).2.ring_buffer_size = t.ring_buffer_size := by
  induction recs with
  | nil =>
    intro t gs p hw
    exact ⟨gs, p, rfl, hw, by simp, rfl⟩
  | cons r rs ih =>
    intro t gs p hw
    obtain ⟨gs1, p1, w1, w2, w3, w4, _⟩ := tmp_file_write_spec hl hc full hw r
    obtain ⟨gs2, p2, v1, v2, v3, v4⟩ := ih _ gs1 p1 w2
    refine ⟨gs2, p2, ?_, v2, ?_, ?_⟩
    · simp only [write_all, w1, v1, List.length_cons, List.replicate_succ]
    · rw [v3, w3]
      simp
    · show (write_all lz codec full (tmp_file_write lz codec full t r).2 rs).2.ring_buffer_size = _
      rw [v4, w4]

theorem tmp_file_close_write_spec {lz : lz4_t} {codec : codec_t} (hl : lz4_lossless lz)
    (hc : codec_frames codec) {t : tmp_file_t} {gs : List (List (List Nat))}
    {p : List (List Nat)} (hw : Writing lz codec t gs p) :
    ∃ gs', (tmp_file_close_write lz t).1 = TMP_SAM_OK ∧
      (tmp_file_close_write lz t).2.mode = tmp_mode.WriteFinalizedClosed ∧
      (tmp_file_close_write lz t).2.fp = frames_of lz codec t.ring_buffer_size [] gs' ++ [[]] ∧
      (tmp_file_close_write lz t).2.ring_buffer_size = t.ring_buffer_size ∧
      records_of gs' = records_of gs ++ p ∧ ∀ g ∈ gs', g ≠ [] := by
  have hm : ¬ t.mode ≠ tmp_mode.WriteOpen := by simp [hw.1]
  by_cases he : t.entry_number = 0
  · have hp : p = [] := List.length_eq_zero.mp (by rw [← hw.2.2.2.2.1]; exact he)
    have e : tmp_file_close_write lz t = (TMP_SAM_OK,
        { t with fp := t.fp ++ [[]], mode := tmp_mode.WriteFinalizedClosed }) := by
      simp [tmp_file_close_write, hm, he]
    rw [e]
    refine ⟨gs, rfl, rfl, ?_, rfl, by simp [hp], hw.2.2.2.2.2⟩
    show t.fp ++ [[]] = _
    rw [hw.2.1]
  · have hp : p ≠ [] := by
      intro h
      rw [hw.2.2.2.2.1, h] at he
      exact he rfl
    obtain ⟨f1, f2, f3, _⟩ := flush_group_spec hl hc hw hp
    have e : tmp_file_close_write lz t = (TMP_SAM_OK,
        { (flush_group lz t).2 with
          fp := (flush_group lz t).2.fp ++ [[]], mode := tmp_mode.WriteFinalizedClosed }) := by
      simp [tmp_file_close_write, hm, he, f1]
    rw [e]
    refine ⟨gs ++ [p], rfl, rfl, ?_, f3, by simp [records_of_append, records_of],
      f2.2.2.2.2.2⟩
    show (flush_group lz t).2.fp ++ [[]] = _
    rw [f2.2.1, f3]

theorem next_record_spec {codec : codec_t} (hc : codec_frames codec) {t : tmp_file_t}
    {r : List Nat} {p : List (List Nat)} (hd : t.staging = payload codec (r :: p)) :
    next_record codec t =
      (((codec.serialize r).length : Int),
        { t with staging := payload codec p, entry_number := t.entry_number + 1 }, some r) := by
  have hd' : t.staging = codec.serialize r ++ payload codec p := hd
  have hdes := (hc r (payload codec p)).2
  simp only [next_record, hd', hdes, List.drop_left]

theorem read_step_staged {lz : lz4_t} {codec : codec_t} (hc : codec_frames codec)
    {t : tmp_file_t} {r : List Nat} {p : List (List Nat)} {gs : List (List (List Nat))}
    (hr : Reading lz codec t (r :: p) gs) :
    ∃ t', tmp_file_read lz codec t = (((codec.serialize r).length : Int), t', some r) ∧
      Reading lz codec t' p gs := by
  obtain ⟨hm, hd, hu, hg⟩ := hr
  have hmode : ¬ t.mode ≠ tmp_mode.ReadOpen := by simp [hm]
  have hne : t.staging ≠ [] := by rw [hd]; exact payload_ne_nil hc (by simp)
  refine ⟨{ t with staging := payload codec p, entry_number := t.entry_number + 1 }, ?_,
    ⟨hm, rfl, hu, hg⟩⟩
  rw [← next_record_spec hc hd]
  cases hdat : t.staging with
  | nil => exact absurd hdat hne
  | cons b c => simp only [tmp_file_read, hmode, if_false, hdat]

theorem read_step_refill {lz : lz4_t} {codec : codec_t} (hl : lz4_lossless lz)
    (hc : codec_frames codec) {t : tmp_file_t} {r : List Nat} {g : List (List Nat)}
    {gs : List (List (List Nat))} (hr : Reading lz codec t [] ((r :: g) :: gs)) :
    ∃ t', tmp_file_read lz codec t = (((codec.serialize r).length : Int), t', some r) ∧
      Reading lz codec t' g gs := by
  obtain ⟨hm, hd, hu, hg⟩ := hr
  have hmode : ¬ t.mode ≠ tmp_mode.ReadOpen := by simp [hm]
  have hd' : t.staging = [] := hd
  have hpne : payload codec (r :: g) ≠ [] := payload_ne_nil hc (by simp)
  obtain ⟨hcne, hdec⟩ := hl t.ring_buffer _ hpne
  have hu' : t.unread = lz.compress t.ring_buffer (payload codec (r :: g)) ::
      (frames_of lz codec t.ring_buffer_size
        (window_extend t.ring_buffer_size t.ring_buffer (payload codec (r :: g))) gs ++ [[]]) := by
    rw [hu]; rfl
  cases hblk : lz.compress t.ring_buffer (payload codec (r :: g)) with
  | nil => exact absurd hblk hcne
  | cons b c =>
    rw [hblk] at hu' hdec
    have e : tmp_file_read lz codec t = next_record codec
        { t with unread := frames_of lz codec t.ring_buffer_size
                   (window_extend t.ring_buffer_size t.ring_buffer (payload codec (r :: g))) gs
                   ++ [[]]
                 ring_buffer := window_extend t.ring_buffer_size t.ring_buffer
                   (payload codec (r :: g))
                 staging := payload codec (r :: g)
                 entry_number := 0 } := by
      simp only [tmp_file_read, hmode, if_false, hd', hu', hdec]
    rw [e, next_record_spec hc rfl]
    refine ⟨_, rfl, ⟨hm, rfl, rfl, ?_⟩⟩
    intro g' hg'
    exact hg g' (List.mem_cons_of_mem _ hg')

theorem read_at_end {lz : lz4_t} {codec : codec_t} {t : tmp_file_t}
    (hr : Reading lz codec t [] []) : tmp_file_read lz codec t = (0, t, none) := by
  obtain ⟨hm, hd, hu, _⟩ := hr
  have hmode : ¬ t.mode ≠ tmp_mode.ReadOpen := by simp [hm]
  have hd' : t.staging = [] := hd
  have hu' : t.unread = [[]] := hu
  simp only [tmp_file_read, hmode, if_false, hd', hu']

theorem read_many_spec {lz : lz4_t} {codec : codec_t} (hl : lz4_lossless lz)
    (hc : codec_frames codec) (recs : List (List Nat)) :
    ∀ (t : tmp_file_t) (p : List (List Nat)) (gs : List (List (List Nat))),
      Reading lz codec t p gs → p ++ records_of gs = recs →
      (read_many lz codec recs.length t).1 =
        recs.map (fun r => (((codec.serialize r).length : Int), some r)) ∧
      Reading lz codec (read_many lz codec recs.length t).2 [] [] := by
  induction recs with
  | nil =>
    intro t p gs hr he
    have hp : p = [] := (List.append_eq_nil.mp he).1
    have hgs : gs = [] := by
      cases gs with
      | nil => rfl
      | cons g gs' =>
        have h1 : records_of (g :: gs') = [] := (List.append_eq_nil.mp he).2
        have h2 : g = [] := (List.append_eq_nil.mp h1).1
        exact absurd h2 (hr.2.2.2 g (List.mem_cons_self _ _))
    subst hp; subst hgs
    exact ⟨rfl, hr⟩
  | cons r rs ih =>
    intro t p gs hr he
    have hstep : ∃ t' p' gs',
        tmp_file_read lz codec t = (((codec.serialize r).length : Int), t', some r) ∧
        Reading lz codec t' p' gs' ∧ p' ++ records_of gs' = rs := by
      cases p with
      | cons r0 p' =>
        rw [List.cons_append] at he
        obtain ⟨h1, h2⟩ := List.cons.inj he
        subst h1
        obtain ⟨t', e, hr'⟩ := read_step_staged hc hr
        exact ⟨t', p', gs, e, hr', h2⟩
      | nil =>
        cases gs with
        | nil => simp [records_of] at he
        | cons g gs' =>
          cases g with
          | nil => exact absurd rfl (hr.2.2.2 [] (List.mem_cons_self _ _))
          | cons r0 g' =>
            have he' : r0 :: (g' ++ records_of gs') = r :: rs := he
            obtain ⟨h1, h2⟩ := List.cons.inj he'
            subst h1
            obtain ⟨t', e, hr'⟩ := read_step_refill hl hc hr
            exact ⟨t', g', gs', e, hr', h2⟩
    obtain ⟨t', p', gs', e, hr', he'⟩ := hstep
    obtain ⟨i1, i2⟩ := ih t' p' gs' hr' he'
    constructor
    · simp only [List.length_cons, read_many, e, i1, List.map_cons]
    · simp only [List.length_cons, read_many, e]
      exact i2

theorem writing_fresh (lz : lz4_t) (codec : codec_t) (group_size ring_size : Nat) :
    Writing lz codec
      { tmp_file_open_write.2 with group_size := group_size, ring_buffer_size := ring_size }
      [] [] :=
  ⟨rfl, rfl, rfl, rfl, rfl, fun _ h => by cases h⟩

theorem lz4_tagged_lossless : lz4_lossless lz4_tagged := by
  intro d x _
  simp [lz4_tagged]

theorem codec_len_frames : codec_frames codec_len := by
  intro r rest
  simp [codec_len]

/-! ## The claims on the spill file -/

/-- C7: spec-modelled spill file.  For every lossless compressor, every codec
that frames records, every group size, buffer threshold and window capacity
and every sequence of records: each `tmp_file_write` returns TMP_SAM_OK, and
so do `tmp_file_close_write` and `tmp_file_open_read`; the next N calls of
`tmp_file_read` give the records back in the order written, each call
returning the size of the entry, which is positive; and the call after them
returns 0. -/
theorem C7_spill_round_trip (lz : lz4_t) (codec : codec_t) (full : tmp_file_t → Bool)
    (group_size ring_size : Nat) (recs : List (List Nat)) (hl : lz4_lossless lz)
    (hc : codec_frames codec) :
    let t0 : tmp_file_t :=
      { tmp_file_open_write.2 with group_size := group_size, ring_buffer_size := ring_size }
    let w := write_all lz codec full t0 recs
    let c := tmp_file_close_write lz w.2
    let o := tmp_file_open_read c.2
    let rd := read_many lz codec recs.length o.2
    w.1 = List.replicate recs.length TMP_SAM_OK ∧ c.1 = TMP_SAM_OK ∧ o.1 = TMP_SAM_OK ∧
    rd.1 = recs.map (fun r => (((codec.serialize r).length : Int), some r)) ∧
    (∀ x ∈ rd.1, 0 < x.1) ∧
    (tmp_file_read lz codec rd.2).1 = 0 := by
  intro t0 w c o rd
  obtain ⟨gs, p, w1, w2, w3, w4⟩ :=
    write_all_spec hl hc full recs t0 [] [] (writing_fresh lz codec group_size ring_size)
  obtain ⟨gs', c1, c2, c3, c4, c5, c6⟩ := tmp_file_close_write_spec hl hc w2
  have hmode : ¬ c.2.mode ≠ tmp_mode.WriteFinalizedClosed := by simp [c, w, c2]
  have eo : o = (TMP_SAM_OK,
      { c.2 with mode := tmp_mode.ReadOpen, unread := c.2.fp, ring_buffer := [], staging := [],
                 entry_number := 0 }) := by
    simp only [o, tmp_file_open_read, hmode, if_false]
  have hread : Reading lz codec o.2 [] gs' := by
    rw [eo]
    refine ⟨rfl, rfl, ?_, c6⟩
    show c.2.fp = frames_of lz codec c.2.ring_buffer_size [] gs' ++ [[]]
    rw [c3, c4]
  have hrecs : [] ++ records_of gs' = recs := by
    rw [List.nil_append, c5, w3]
    simp [records_of]
  obtain ⟨r1, r2⟩ := read_many_spec hl hc recs o.2 [] gs' hread hrecs
  refine ⟨w1, c1, by rw [eo], r1, ?_, ?_⟩
  · intro x hx
    rw [r1] at hx
    obtain ⟨r, _, hr⟩ := List.mem_map.mp hx
    rw [← hr]
    have := (hc r []).1
    show (0 : Int) < ((codec.serialize r).length : Int)
    omega
  · rw [read_at_end r2]

/-- Witness of C7: five records, written in groups that are flushed at two
records or three staged bytes, with a dictionary window of four bytes, a
compressor that checks the window and a codec that frames a record by its
length. -/
theorem C7_spill_round_trip_witness :
    (write_all lz4_tagged codec_len full_at_three tmp_small five_records).1 = [0, 0, 0, 0, 0] ∧
    (tmp_file_close_write lz4_tagged
      (write_all lz4_tagged codec_len full_at_three tmp_small five_records).2).1 = 0 ∧
    (read_many lz4_tagged codec_len 5 (tmp_file_open_read (tmp_file_close_write lz4_tagged
      (write_all lz4_tagged codec_len full_at_three tmp_small five_records).2).2).2).1 =
      [(3, some [1, 2]), (2, some [3]), (1, some []), (4, some [4, 5, 6]), (2, some [7])] ∧
    (tmp_file_read lz4_tagged codec_len (read_many lz4_tagged codec_len 5 (tmp_file_open_read
      (tmp_file_close_write lz4_tagged
        (write_all lz4_tagged codec_len full_at_three tmp_small five_records).2).2).2).2).1 = 0 :=
  have h := C7_spill_round_trip lz4_tagged codec_len full_at_three 2 4 five_records
    lz4_tagged_lossless codec_len_frames
  ⟨h.1, h.2.1, h.2.2.2.1, h.2.2.2.2.2⟩

/-- C8: the status codes of `tmp_file.h`: TMP_SAM_OK is 0; the four error codes
are negative and pairwise distinct; so a result that is 0 (end of file) or
positive (the size of an entry) is none of the error codes. -/
theorem C8_status_codes :
    TMP_SAM_OK = 0 ∧
    TMP_SAM_MEM_ERROR < 0 ∧ TMP_SAM_FILE_ERROR < 0 ∧ TMP_SAM_LZ4_ERROR < 0 ∧
    TMP_SAM_INPUT_ERROR < 0 ∧
    [TMP_SAM_MEM_ERROR, TMP_SAM_FILE_ERROR, TMP_SAM_LZ4_ERROR, TMP_SAM_INPUT_ERROR].Nodup ∧
    (∀ r : Int, 0 ≤ r →
      r ∉ [TMP_SAM_MEM_ERROR, TMP_SAM_FILE_ERROR, TMP_SAM_LZ4_ERROR, TMP_SAM_INPUT_ERROR]) := by
  refine ⟨rfl, by decide, by decide, by decide, by decide, by decide, ?_⟩
  intro r hr hmem
  simp only [TMP_SAM_MEM_ERROR, TMP_SAM_FILE_ERROR, TMP_SAM_LZ4_ERROR, TMP_SAM_INPUT_ERROR,
    List.mem_cons, List.mem_singleton, List.not_mem_nil, or_false] at hmem
  omega

/-! ## Calling `bam_smpl_add` again -/

theorem registered_key (sm : bam_sample_t) (key val : String) :
    kh_find (registered sm key val).rg2smid key ≠ none := by
  cases hk : kh_find sm.rg2smid key with
  | none =>
    obtain ⟨i, hi, _⟩ := registered_new sm val hk
    rw [hi]; simp
  | some v =>
    rw [registered_dup val (by rw [hk]; simp), hk]; simp

theorem registered_idem (sm : bam_sample_t) (key val val' : String) :
    registered (registered sm key val) key val' = registered sm key val :=
  registered_dup val' (registered_key sm key val)

theorem register_all_noop (fn : String) :
    ∀ (g : List (String × String)) (sm : bam_sample_t),
      (∀ e ∈ g, kh_find sm.rg2smid (fn ++ "/" ++ e.1) ≠ none) → register_all sm fn g = sm := by
  intro g
  induction g with
  | nil => intro sm _; rfl
  | cons e rest ih =>
    intro sm hreg
    simp only [register_all]
    rw [registered_dup e.2 (hreg e (List.mem_cons_self _ _))]
    exact ih sm (fun e' he' => hreg e' (List.mem_cons_of_mem _ he'))

theorem added_bare_registered (sm : bam_sample_t) (fn : String)
    (rg : List (List (String × String))) (hg : (good_lines rg).length ≤ 1) :
    kh_find (added sm fn rg).rg2smid fn ≠ none := by
  unfold added
  cases hq : good_lines rg with
  | nil => exact registered_key sm fn fn
  | cons e1 rest =>
    cases rest with
    | nil => exact registered_key _ fn e1.2
    | cons e2 rest =>
      rw [hq] at hg
      simp at hg

theorem added_idem (sm : bam_sample_t) (fn : String) (rg : List (List (String × String)))
    (h : InvSm sm) : added (added sm fn rg) fn rg = added sm fn rg := by
  have hall : register_all (added sm fn rg) fn (good_lines rg) = added sm fn rg :=
    register_all_noop fn (good_lines rg) _ (added_registered sm fn rg h)
  cases hq : good_lines rg with
  | nil =>
    have hb := added_bare_registered sm fn rg (by rw [hq]; simp)
    have e : added (added sm fn rg) fn rg = registered (added sm fn rg) fn fn := by
      simp only [added, hq]
    rw [e]
    exact registered_dup fn hb
  | cons e1 rest =>
    cases rest with
    | nil =>
      have hb := added_bare_registered sm fn rg (by rw [hq]; simp)
      have e : added (added sm fn rg) fn rg =
          registered (register_all (added sm fn rg) fn [e1]) fn e1.2 := by
        simp only [added, hq]
      rw [hq] at hall
      rw [e, hall]
      exact registered_dup e1.2 hb
    | cons e2 rest =>
      have e : added (added sm fn rg) fn rg =
          register_all (added sm fn rg) fn (e1 :: e2 :: rest) := by
        simp only [added, hq]
      rw [hq] at hall
      rw [e, hall]

theorem parse_ok_of_ret_zero {sm : bam_sample_t} {fn : String} {hdr : sam_hdr_t} {junk : Int}
    {o : List Bool} (h0 : (bam_smpl_add sm fn (some hdr) junk o).1 = 0) :
    hdr.parse_ok = true := by
  cases hp : hdr.parse_ok with
  | true => rfl
  | false =>
    have hc : sam_hdr_count_lines hdr = -1 := by simp [sam_hdr_count_lines, hp]
    simp [bam_smpl_add, hc] at h0

/-! ## Further claims on `sample.c` -/

/-- C11, the claim as stated fails: the first call, for the header with the one
read group a of sample x, has its first `sam_hdr_find_tag_pos` fail; the loop
breaks at sample.c:111 with `n == 0`, the bare name f is registered for the
sample f and the call returns 0.  The same call made again, with no library
call failing, returns 0 too and registers f/a for the new sample x: `n` goes
from 1 to 2 and the record is not the one the first call left. -/
theorem C11_counterexample :
    (bam_smpl_add bam_smpl_init "f" (some hdr_one) 7 [false]).1 = 0 ∧
    (bam_smpl_add bam_smpl_init "f" (some hdr_one) 7 [false]).2 =
      { n := 1, m := 1, smpl := [some "f"], rg2smid := [("f", 0)], sm2id := [("f", 0)] } ∧
    (bam_smpl_add (bam_smpl_add bam_smpl_init "f" (some hdr_one) 7 [false]).2 "f"
      (some hdr_one) 7 []).1 = 0 ∧
    (bam_smpl_add (bam_smpl_add bam_smpl_init "f" (some hdr_one) 7 [false]).2 "f"
      (some hdr_one) 7 []).2 =
      { n := 2, m := 2, smpl := [some "f", some "x"], rg2smid := [("f", 0), ("f/a", 1)],
        sm2id := [("f", 0), ("x", 1)] } ∧
    (bam_smpl_add (bam_smpl_add bam_smpl_init "f" (some hdr_one) 7 [false]).2 "f"
      (some hdr_one) 7 []).2 ≠ (bam_smpl_add bam_smpl_init "f" (some hdr_one) 7 [false]).2 := by
  decide

/-- C11 as amended: from a reachable state, when a call of `bam_smpl_add` in
which no library call failed returned 0, the same call made again at once, no
library call failing in it either, also returns 0 and leaves the record
(`rg2smid`, `sm2id`, `smpl`, `n`, `m`) exactly as the first call left it. -/
theorem C11_add_twice_is_add_once (sm : bam_sample_t) (fn : String) (hdr : Option sam_hdr_t)
    (junk1 junk2 : Int) (o1 o2 : List Bool) (hreach : Reachable sm) (ho1 : NoFail o1)
    (ho2 : NoFail o2) (h0 : (bam_smpl_add sm fn hdr junk1 o1).1 = 0) :
    (bam_smpl_add (bam_smpl_add sm fn hdr junk1 o1).2 fn hdr junk2 o2).1 = 0 ∧
    (bam_smpl_add (bam_smpl_add sm fn hdr junk1 o1).2 fn hdr junk2 o2).2 =
      (bam_smpl_add sm fn hdr junk1 o1).2 := by
  have h := reachable_invSm hreach
  cases hdr with
  | none =>
    rw [bam_smpl_add_null sm fn junk1 ho1, bam_smpl_add_null _ fn junk2 ho2]
    exact ⟨rfl, registered_idem sm fn fn fn⟩
  | some hd =>
    have hp := parse_ok_of_ret_zero h0
    rw [bam_smpl_add_ok sm fn hd junk1 hp ho1, bam_smpl_add_ok _ fn hd junk2 hp ho2]
    exact ⟨rfl, added_idem sm fn hd.rg h⟩

/-- Witness of C11 as amended: the header with the read groups a, b, c added
twice under the source name f. -/
theorem C11_add_twice_is_add_once_witness :
    (bam_smpl_add bam_smpl_init "f" (some hdr_three) 7 []).1 = 0 ∧
    (bam_smpl_add (bam_smpl_add bam_smpl_init "f" (some hdr_three) 7 []).2 "f"
      (some hdr_three) 9 [true]).1 = 0 ∧
    (bam_smpl_add (bam_smpl_add bam_smpl_init "f" (some hdr_three) 7 []).2 "f"
      (some hdr_three) 9 [true]).2 = (bam_smpl_add bam_smpl_init "f" (some hdr_three) 7 []).2 :=
  ⟨by decide, C11_add_twice_is_add_once bam_smpl_init "f" (some hdr_three) 7 9 [] [true]
    Reachable.init noFail_nil (by decide) (by decide)⟩

/-- C15: for a header whose first two `@RG` lines both carry ID and SM and a
source name `fn` that is not a registered key, `bam_smpl_add` returns 0 (no
library call failing) and afterwards the lookup of `fn` with a NULL read group
returns -1. -/
theorem C15_two_lines_leave_bare_name_out (sm : bam_sample_t) (fn : String) (hdr : sam_hdr_t)
    (junk : Int) (o : List Bool) (l1 l2 : List (String × String))
    (rest : List (List (String × String))) (id1 s1 id2 s2 : String)
    (hp : hdr.parse_ok = true) (ho : NoFail o) (hrg : hdr.rg = l1 :: l2 :: rest)
    (h1i : find_key l1 "ID" = some id1) (h1s : find_key l1 "SM" = some s1)
    (h2i : find_key l2 "ID" = some id2) (h2s : find_key l2 "SM" = some s2)
    (hfn : kh_get sm.rg2smid fn = none) :
    (bam_smpl_add sm fn (some hdr) junk o).1 = 0 ∧
    bam_smpl_rg2smid (bam_smpl_add sm fn (some hdr) junk o).2 fn none = -1 := by
  rw [bam_smpl_add_ok sm fn hdr junk hp ho]
  have hg : good_lines hdr.rg = (id1, s1) :: (id2, s2) :: good_lines rest := by
    simp [hrg, good_lines, h1i, h1s, h2i, h2s]
  refine ⟨rfl, rg2smid_of_none ?_⟩
  show kh_find (added sm fn hdr.rg).rg2smid fn = none
  rw [added_two_bare sm fn hdr.rg hg]
  exact kh_find_eq_none.mpr hfn

/-- Witness of C15: the header with the read groups a and a again, added to
the state in which the source name g is registered. -/
theorem C15_two_lines_leave_bare_name_out_witness :
    (bam_smpl_add (bam_smpl_add bam_smpl_init "g" none 7 []).2 "f" (some hdr_same_id) 7 []).1 = 0 ∧
    bam_smpl_rg2smid (bam_smpl_add (bam_smpl_add bam_smpl_init "g" none 7 []).2 "f"
      (some hdr_same_id) 7 []).2 "f" none = -1 :=
  C15_two_lines_leave_bare_name_out (bam_smpl_add bam_smpl_init "g" none 7 []).2 "f" hdr_same_id
    7 [] (rg_line "a" "x") (rg_line "a" "y") [] "a" "x" "a" "y" rfl noFail_nil rfl
    (by decide) (by decide) (by decide) (by decide) (by decide)

/-! ## Keys of source names without a slash -/

theorem append_cons_inj {c : Char} :
    ∀ (l1 l2 r1 r2 : List Char), c ∉ l1 → c ∉ l2 → l1 ++ c :: r1 = l2 ++ c :: r2 →
      l1 = l2 ∧ r1 = r2 := by
  intro l1
  induction l1 with
  | nil =>
    intro l2 r1 r2 _ h2 he
    cases l2 with
    | nil => exact ⟨rfl, (List.cons.inj he).2⟩
    | cons y l2' =>
      have hy : c = y := (List.cons.inj he).1
      exact absurd (by rw [hy]; exact List.mem_cons_self _ _) h2
  | cons x l1' ih =>
    intro l2 r1 r2 h1 h2 he
    cases l2 with
    | nil =>
      have hx : x = c := (List.cons.inj he).1
      exact absurd (by rw [hx]; exact List.mem_cons_self _ _) h1
    | cons y l2' =>
      obtain ⟨hxy, ht⟩ := List.cons.inj he
      obtain ⟨q1, q2⟩ := ih l2' r1 r2 (fun hm => h1 (List.mem_cons_of_mem _ hm))
        (fun hm => h2 (List.mem_cons_of_mem _ hm)) ht
      exact ⟨by rw [hxy, q1], q2⟩

theorem key_data (fn r : String) : (fn ++ "/" ++ r).data = fn.data ++ '/' :: r.data := by
  simp only [String.data_append, List.append_assoc]
  rfl

theorem key_inj_no_slash {fn fn' a b : String} (h1 : '/' ∉ fn.data) (h2 : '/' ∉ fn'.data)
    (h : fn ++ "/" ++ a = fn' ++ "/" ++ b) : fn = fn' ∧ a = b := by
  have hd := congrArg String.data h
  rw [key_data, key_data] at hd
  obtain ⟨q1, q2⟩ := append_cons_inj _ _ _ _ h1 h2 hd
  exact ⟨String.ext q1, String.ext q2⟩

theorem key_ne_bare_no_slash {fn fn' : String} (a : String) (h2 : '/' ∉ fn'.data) :
    fn ++ "/" ++ a ≠ fn' := by
  intro h
  have hd := congrArg String.data h
  rw [key_data] at hd
  exact h2 (by rw [← hd]; simp)

theorem compose_key_inj {fn fn' : String} {rg rg' : Option String} (h1 : '/' ∉ fn.data)
    (h2 : '/' ∉ fn'.data) (h : compose_key fn rg = compose_key fn' rg') :
    fn = fn' ∧ rg = rg' := by
  cases rg with
  | none =>
    cases rg' with
    | none => exact ⟨h, rfl⟩
    | some b => exact absurd h.symm (key_ne_bare_no_slash b h1)
  | some a =>
    cases rg' with
    | none => exact absurd h (key_ne_bare_no_slash a h2)
    | some b =>
      obtain ⟨q1, q2⟩ := key_inj_no_slash h1 h2 h
      exact ⟨q1, by rw [q2]⟩

theorem kh_get_key {h : khash_t} {key : String} {k : Nat} (hk : kh_get h key = some k) :
    ∃ v, h[k]? = some (key, v) := by
  induction h generalizing k with
  | nil => simp [kh_get] at hk
  | cons e t ih =>
    simp only [kh_get] at hk
    split at hk
    · rename_i he
      simp only [Option.some.injEq] at hk
      subst hk
      exact ⟨e.2, by simp [← he]⟩
    · cases hg : kh_get t key with
      | none => simp [hg] at hk
      | some j =>
        simp only [hg, Option.map_some', Option.some.injEq] at hk
        subst hk
        obtain ⟨v, hv⟩ := ih hg
        exact ⟨v, by simpa using hv⟩

/-- C14: for source names `fn`, `fn'` without a slash and read groups `rg`,
`rg'` (NULL or not), the key composed for `fn`, `rg` equals the key composed
for `fn'`, `rg'` only if `fn = fn'` and `rg = rg'`; a composed key `fn/r` is
never a bare key `fn'`; `bam_smpl_rg2smid` looks up the composed key, and the
slot it finds holds a key composed for `fn'`, `rg'` only if `fn = fn'` and
`rg = rg'`. -/
theorem C14_keys_do_not_collide (fn fn' : String) (rg rg' : Option String)
    (hfn : '/' ∉ fn.data) (hfn' : '/' ∉ fn'.data) :
    (compose_key fn rg = compose_key fn' rg' → fn = fn' ∧ rg = rg') ∧
    (∀ r, compose_key fn (some r) ≠ compose_key fn' none) ∧
    (∀ sm : bam_sample_t,
      bam_smpl_rg2smid sm fn rg = (kh_find sm.rg2smid (compose_key fn rg)).getD (-1)) ∧
    (∀ (sm : bam_sample_t) (k : Nat) (v : Int),
      kh_get sm.rg2smid (compose_key fn rg) = some k →
      sm.rg2smid[k]? = some (compose_key fn' rg', v) → fn = fn' ∧ rg = rg') := by
  refine ⟨compose_key_inj hfn hfn', ?_, fun sm => rg2smid_eq sm fn rg, ?_⟩
  · intro r
    exact key_ne_bare_no_slash r hfn'
  · intro sm k v hk hslot
    obtain ⟨v', hv'⟩ := kh_get_key hk
    rw [hv'] at hslot
    simp only [Option.some.injEq, Prod.mk.injEq] at hslot
    exact compose_key_inj hfn hfn' hslot.1

/-- Witness of C14: the source names f and g, the read group a/b and no read
group. -/
theorem C14_keys_do_not_collide_witness :
    (compose_key "f" (some "a/b") = compose_key "g" none → "f" = "g" ∧ some "a/b" = none) ∧
    (∀ r, compose_key "f" (some r) ≠ compose_key "g" none) ∧
    (∀ sm : bam_sample_t,
      bam_smpl_rg2smid sm "f" (some "a/b") =
        (kh_find sm.rg2smid (compose_key "f" (some "a/b"))).getD (-1)) ∧
    (∀ (sm : bam_sample_t) (k : Nat) (v : Int),
      kh_get sm.rg2smid (compose_key "f" (some "a/b")) = some k →
      sm.rg2smid[k]? = some (compose_key "g" none, v) → "f" = "g" ∧ some "a/b" = none) :=
  C14_keys_do_not_collide "f" "g" (some "a/b") none (by decide) (by decide)

/-! ## Stable ids and the well-formed record -/

theorem add_pair_fresh_id (sm : bam_sample_t) {key val : String} (junk : Int) (o : List Bool)
    (hk : kh_get sm.rg2smid key = none) (hv : kh_find sm.sm2id val = none)
    (h0 : (add_pair sm key val junk o).1 = 0) :
    kh_find (add_pair sm key val junk o).2.1.sm2id val = some (sm.n : Int) ∧
      (add_pair sm key val junk o).2.1.n = sm.n + 1 := by
  obtain ⟨o', c | c | c | c | c⟩ := add_pair_cases sm key val junk o
  · exact absurd hk c.1
  · rw [c.2] at h0; simp at h0
  · obtain ⟨_, _, m', smpl', e, _⟩ := c
    rw [e] at h0; simp at h0
  · obtain ⟨_, k, hg, _⟩ := c
    rw [kh_find_of_get hg] at hv
    simp at hv
  · rw [c.2.2]
    exact ⟨kh_find_append_new _ hv, rfl⟩

theorem new_names_of_ext {sm sm' : bam_sample_t} (h : InvSm sm) (h' : InvSm sm')
    (hx : Ext sm sm') :
    (∀ s i, kh_find sm.sm2id s = none → kh_find sm'.sm2id s = some i →
      (sm.n : Int) ≤ i ∧ i < (sm'.n : Int) ∧ sm'.smpl[i.toNat]? = some (some s)) ∧
    (∀ j : Nat, sm.n ≤ j → j < sm'.n →
      ∃ s, kh_find sm.sm2id s = none ∧ kh_find sm'.sm2id s = some (j : Int)) := by
  constructor
  · intro s i hnone hsome
    obtain ⟨j, hj, hlt, hg⟩ := h'.2.2.1 s i hsome
    subst hj
    refine ⟨?_, by omega, by simpa using hg⟩
    by_contra hcon
    have hjn : j < sm.n := by omega
    obtain ⟨s0, hg0, hs0⟩ := h.2.2.2 j hjn
    rw [hx.2.2.2 j hjn, hg0] at hg
    simp only [Option.some.injEq] at hg
    subst hg
    rw [hnone] at hs0
    simp at hs0
  · intro j hge hlt
    obtain ⟨s, _, hs⟩ := h'.2.2.2 j hlt
    refine ⟨s, ?_, hs⟩
    cases hold : kh_find sm.sm2id s with
    | none => rfl
    | some i =>
      obtain ⟨j0, hj0, hlt0, _⟩ := h.2.2.1 s i hold
      have := hx.2.1 s i hold
      rw [hs] at this
      simp only [Option.some.injEq] at this
      omega

/-- C12: from a reachable state, after a call of `bam_smpl_add` that returns 0,
every key registered before is registered with the same id, every sample name
interned before has the same id and the same position in `smpl`, `n` has not
decreased, and the sample names interned by the call have the ids from the
old `n` up to the new `n`, one each, with `smpl` holding each name at its id;
and whenever `add_pair` interns a sample name, the name gets the value of `n`
before the call as its id and `n` goes up by one. -/
theorem C12_ids_are_stable (sm : bam_sample_t) (fn : String) (hdr : Option sam_hdr_t)
    (junk : Int) (o : List Bool) (hreach : Reachable sm)
    (_h0 : (bam_smpl_add sm fn hdr junk o).1 = 0) :
    (∀ k v, kh_find sm.rg2smid k = some v →
      kh_find (bam_smpl_add sm fn hdr junk o).2.rg2smid k = some v) ∧
    (∀ s i, kh_find sm.sm2id s = some i →
      kh_find (bam_smpl_add sm fn hdr junk o).2.sm2id s = some i) ∧
    (∀ j : Nat, j < sm.n → (bam_smpl_add sm fn hdr junk o).2.smpl[j]? = sm.smpl[j]?) ∧
    sm.n ≤ (bam_smpl_add sm fn hdr junk o).2.n ∧
    (∀ s i, kh_find sm.sm2id s = none →
      kh_find (bam_smpl_add sm fn hdr junk o).2.sm2id s = some i →
      (sm.n : Int) ≤ i ∧ i < ((bam_smpl_add sm fn hdr junk o).2.n : Int) ∧
      (bam_smpl_add sm fn hdr junk o).2.smpl[i.toNat]? = some (some s)) ∧
    (∀ j : Nat, sm.n ≤ j → j < (bam_smpl_add sm fn hdr junk o).2.n →
      ∃ s, kh_find sm.sm2id s = none ∧
        kh_find (bam_smpl_add sm fn hdr junk o).2.sm2id s = some (j : Int)) ∧
    (∀ (st : bam_sample_t) (key val : String) (junk' : Int) (o' : List Bool),
      kh_get st.rg2smid key = none → kh_find st.sm2id val = none →
      (add_pair st key val junk' o').1 = 0 →
      kh_find (add_pair st key val junk' o').2.1.sm2id val = some (st.n : Int) ∧
      (add_pair st key val junk' o').2.1.n = st.n + 1) := by
  have h := reachable_invSm hreach
  obtain ⟨h', hx, _⟩ := bam_smpl_add_inv sm fn hdr junk o h
  obtain ⟨n1, n2⟩ := new_names_of_ext h h' hx
  exact ⟨hx.1, hx.2.1, hx.2.2.2, hx.2.2.1, n1, n2,
    fun st key val junk' o' hk hv hr => add_pair_fresh_id st junk' o' hk hv hr⟩

/-- Witness of C12: the header with the read groups a, b, c added under the
source name g to the state in which the read group a of sample x is registered
under the source name f. -/
theorem C12_ids_are_stable_witness :
    (bam_smpl_add (bam_smpl_add bam_smpl_init "f" (some hdr_one) 7 []).2 "g"
      (some hdr_three) 7 []).1 = 0 ∧
    (∀ k v, kh_find (bam_smpl_add bam_smpl_init "f" (some hdr_one) 7 []).2.rg2smid k = some v →
      kh_find (bam_smpl_add (bam_smpl_add bam_smpl_init "f" (some hdr_one) 7 []).2 "g"
        (some hdr_three) 7 []).2.rg2smid k = some v) ∧
    (bam_smpl_add bam_smpl_init "f" (some hdr_one) 7 []).2.n ≤
      (bam_smpl_add (bam_smpl_add bam_smpl_init "f" (some hdr_one) 7 []).2 "g"
        (some hdr_three) 7 []).2.n ∧
    (∀ j : Nat, (bam_smpl_add bam_smpl_init "f" (some hdr_one) 7 []).2.n ≤ j →
      j < (bam_smpl_add (bam_smpl_add bam_smpl_init "f" (some hdr_one) 7 []).2 "g"
        (some hdr_three) 7 []).2.n →
      ∃ s, kh_find (bam_smpl_add bam_smpl_init "f" (some hdr_one) 7 []).2.sm2id s = none ∧
        kh_find (bam_smpl_add (bam_smpl_add bam_smpl_init "f" (some hdr_one) 7 []).2 "g"
          (some hdr_three) 7 []).2.sm2id s = some (j : Int)) :=
  have h := C12_ids_are_stable (bam_smpl_add bam_smpl_init "f" (some hdr_one) 7 []).2 "g"
    (some hdr_three) 7 []
    (Reachable.add bam_smpl_init "f" (some hdr_one) 7 [] Reachable.init) (by decide)
  ⟨by decide, h.1, h.2.2.2.1, h.2.2.2.2.2.1⟩

theorem rg_loop_keeps (P : bam_sample_t → Prop)
    (hP : ∀ sm key val junk o, P sm → (add_pair sm key val junk o).1 = 0 →
      P (add_pair sm key val junk o).2.1)
    (hdr : sam_hdr_t) (fn : String) (junk : Int) :
    ∀ (todo i : Nat) (sm : bam_sample_t) (first : Option String) (n : Nat) (o : List Bool),
      P sm → (rg_loop hdr fn junk todo i sm first n o).1 = true →
      P (rg_loop hdr fn junk todo i sm first n o).2.1 := by
  intro todo
  induction todo with
  | zero =>
    intro i sm first n o h _
    exact h
  | succ todo ih =>
    intro i sm first n o h
    simp only [rg_loop]
    split
    · exact fun _ => h
    · split
      · exact fun _ => h
      · split
        · exact fun _ => h
        · split
          · exact fun _ => h
          · split
            · exact fun _ => h
            · split
              · intro hf; simp at hf
              · rename_i hneg
                exact ih (i + 1) _ _ (n + 1) _ (hP sm _ _ junk _ h (add_pair_ret_zero hneg))

theorem bam_smpl_add_keeps (P : bam_sample_t → Prop)
    (hP : ∀ sm key val junk o, P sm → (add_pair sm key val junk o).1 = 0 →
      P (add_pair sm key val junk o).2.1)
    (sm : bam_sample_t) (fn : String) (hdr : Option sam_hdr_t) (junk : Int) (o : List Bool)
    (h : P sm) : (bam_smpl_add sm fn hdr junk o).1 = 0 → P (bam_smpl_add sm fn hdr junk o).2 := by
  cases hdr with
  | none => exact fun h0 => hP sm fn fn junk o h h0
  | some hdr =>
    simp only [bam_smpl_add]
    split
    · exact fun _ => h
    · have q := rg_loop_keeps P hP hdr fn junk (sam_hdr_count_lines hdr).toNat 0 sm none 0 o h
      split
      · intro hf; simp at hf
      · rename_i hl
        have hl' : (rg_loop hdr fn junk (sam_hdr_count_lines hdr).toNat 0 sm none 0 o).1 = true := by
          simpa using hl
        split
        · split
          · intro hf; simp at hf
          · rename_i hneg
            exact fun _ => hP _ fn fn junk _ (q hl') (add_pair_ret_zero hneg)
        · split
          · split
            · split
              · intro hf; simp at hf
              · rename_i hneg
                exact fun _ => hP _ fn _ junk _ (q hl') (add_pair_ret_zero hneg)
            · exact fun _ => q hl'
          · exact fun _ => q hl'

theorem add_pair_invRgAll {sm : bam_sample_t} (h : InvSm sm) (hr : InvRgAll sm)
    (key val : String) (junk : Int) (o : List Bool) (h0 : (add_pair sm key val junk o).1 = 0) :
    InvRgAll (add_pair sm key val junk o).2.1 := by
  obtain ⟨o', c | c | c | c | c⟩ := add_pair_cases sm key val junk o
  · rw [c.2]; exact hr
  · rw [c.2]; exact hr
  · obtain ⟨_, _, m', smpl', e, _⟩ := c
    rw [e] at h0; simp at h0
  · obtain ⟨_, k, hv, e⟩ := c
    rw [e]
    intro x hx
    change x ∈ sm.rg2smid ++ [(key, kh_val sm.sm2id k)] at hx
    show 0 ≤ x.2 ∧ x.2 < (sm.n : Int)
    rcases List.mem_append.mp hx with hold | hnew
    · exact hr x hold
    · rw [List.mem_singleton.mp hnew]
      obtain ⟨j, hj, hlt, _⟩ := h.2.2.1 val _ (kh_find_of_get hv)
      show 0 ≤ kh_val sm.sm2id k ∧ kh_val sm.sm2id k < (sm.n : Int)
      omega
  · rw [c.2.2]
    intro x hx
    change x ∈ sm.rg2smid ++ [(key, (sm.n : Int))] at hx
    show 0 ≤ x.2 ∧ x.2 < ((sm.n + 1 : Nat) : Int)
    rcases List.mem_append.mp hx with hold | hnew
    · have := hr x hold
      omega
    · rw [List.mem_singleton.mp hnew]
      show 0 ≤ (sm.n : Int) ∧ (sm.n : Int) < ((sm.n + 1 : Nat) : Int)
      omega

theorem wellReached_inv {sm : bam_sample_t} (h : WellReached sm) : InvSm sm ∧ InvRgAll sm := by
  induction h with
  | init =>
    refine ⟨invSm_init, ?_⟩
    intro e he
    simp [bam_smpl_init, kh_init] at he
  | pair sm key val junk o _ h0 ih =>
    exact ⟨add_pair_invSm ih.1 key val junk o, add_pair_invRgAll ih.1 ih.2 key val junk o h0⟩
  | add sm fn hdr junk o _ h0 ih =>
    exact bam_smpl_add_keeps (fun s => InvSm s ∧ InvRgAll s)
      (fun s key val junk o hs hz =>
        ⟨add_pair_invSm hs.1 key val junk o, add_pair_invRgAll hs.1 hs.2 key val junk o hz⟩)
      sm fn hdr junk o ih h0

/-- C13: in the state `bam_smpl_init` gives and in every state reached from it
by calls of `add_pair` and `bam_smpl_add` that returned 0: `sm2id` sends every
interned sample name `s` to an id below `n` with `smpl[sm2id[s]] = s`; two
names with the same id are the same name; every id below `n` is the id of an
interned name; the names `smpl[0..n-1]` are pairwise distinct; and every id
stored in `rg2smid` is at least 0 and below `n`. -/
theorem C13_record_is_well_formed (sm : bam_sample_t) (hreach : WellReached sm) :
    (∀ s i, kh_find sm.sm2id s = some i →
      ∃ j : Nat, i = (j : Int) ∧ j < sm.n ∧ sm.smpl[j]? = some (some s)) ∧
    (∀ s s' i, kh_find sm.sm2id s = some i → kh_find sm.sm2id s' = some i → s = s') ∧
    (∀ j : Nat, j < sm.n →
      ∃ s, sm.smpl[j]? = some (some s) ∧ kh_find sm.sm2id s = some (j : Int)) ∧
    (∀ j k : Nat, j < sm.n → k < sm.n → sm.smpl[j]? = sm.smpl[k]? → j = k) ∧
    (∀ e ∈ sm.rg2smid, 0 ≤ e.2 ∧ e.2 < (sm.n : Int)) := by
  obtain ⟨h, hr⟩ := wellReached_inv hreach
  refine ⟨h.2.2.1, ?_, h.2.2.2, ?_, hr⟩
  · intro s s' i hs hs'
    obtain ⟨j, hj, _, hg⟩ := h.2.2.1 s i hs
    obtain ⟨j', hj', _, hg'⟩ := h.2.2.1 s' i hs'
    have hjj : j = j' := by omega
    subst hjj
    rw [hg] at hg'
    simpa using hg'
  · intro j k hj hk he
    obtain ⟨s, hg, hs⟩ := h.2.2.2 j hj
    obtain ⟨s', hg', hs'⟩ := h.2.2.2 k hk
    rw [hg, hg'] at he
    simp only [Option.some.injEq] at he
    subst he
    rw [hs] at hs'
    simp only [Option.some.injEq] at hs'
    exact_mod_cast hs'

/-- Witness of C13: the state after the three read groups a, b, c were added
under the source name f and the key k was registered for the sample y. -/
theorem C13_record_is_well_formed_witness :
    (∀ s i, kh_find (add_pair (bam_smpl_add bam_smpl_init "f" (some hdr_three) 7 []).2
        "k" "y" 7 []).2.1.sm2id s = some i →
      ∃ j : Nat, i = (j : Int) ∧
        j < (add_pair (bam_smpl_add bam_smpl_init "f" (some hdr_three) 7 []).2 "k" "y" 7 []).2.1.n ∧
        (add_pair (bam_smpl_add bam_smpl_init "f" (some hdr_three) 7 []).2
          "k" "y" 7 []).2.1.smpl[j]? = some (some s)) ∧
    (∀ e ∈ (add_pair (bam_smpl_add bam_smpl_init "f" (some hdr_three) 7 []).2
        "k" "y" 7 []).2.1.rg2smid,
      0 ≤ e.2 ∧
      e.2 < ((add_pair (bam_smpl_add bam_smpl_init "f" (some hdr_three) 7 []).2
        "k" "y" 7 []).2.1.n : Int)) :=
  have h := C13_record_is_well_formed
    (add_pair (bam_smpl_add bam_smpl_init "f" (some hdr_three) 7 []).2 "k" "y" 7 []).2.1
    (WellReached.pair _ "k" "y" 7 []
      (WellReached.add bam_smpl_init "f" (some hdr_three) 7 [] WellReached.init (by decide))
      (by decide))
  ⟨h.1, h.2.2.2.2⟩

end Samtools
